import Mathlib

/-!
Verification of the per-unit decision engine of the code-busters bot
(source: src/code-busters/solution.py).

The Python program is shallowly embedded below.  Conventions of the
embedding:

* Python integers are Int (positions, radii, counters); pairs stay pairs.
* Python float arithmetic (math.sqrt and true division, used only inside
  Buster.next_step_between and BackingStrategy.keep_distance) is modelled
  as exact real arithmetic; the int(...) conversion is truncation toward
  zero.  The values trunc(s + N / sqrt D) and trunc(N / sqrt D) are
  computed exactly over the integers via Nat.sqrt (see truncAdd and
  truncQuot); the bridge lemmas below prove these integer programs equal
  to the real-valued expressions.
* Object references: the ghost carried by a buster is the index of the
  ghost inside the ghost roster (Python aliases the list element).
* random.randrange calls are modelled by an oracle stream rng : Nat →
  Int × Int carried in the game state; each call site consumes one pair.
* The strategy objects of one acting buster, together with the world
  snapshot, form one state GameS; a strategy is a pair of functions
  is_applicable : GameS → Bool × GameS (the returned state carries the
  scratch fields the Python code writes on self, and for
  InterceptStrategy the mutated ghost roster) and
  execute : GameS → GameS × Cmd.  Every Python execute performs exactly
  one controller call on every path, hence the single Cmd.
* The while loop of ChasingStrategy.is_applicable is given the explicit
  fuel chase_fuel (one unit per squared-distance point between the
  enemy and its base); the termination theorem below proves this fuel is
  never exhausted for the parameters the program uses.
-/

namespace CodeBusters

/-- Squared Euclidean distance, MapObject.distance_from. -/
def distance_from (p q : Int × Int) : Int :=
  (p.1 - q.1) * (p.1 - q.1) + (p.2 - q.2) * (p.2 - q.2)

/-- MapObject.is_in_range: close * close <= d < far * far. -/
def is_in_range (p q : Int × Int) (scope : Int × Int) : Bool :=
  decide (scope.1 * scope.1 ≤ distance_from p q) &&
    decide (distance_from p q < scope.2 * scope.2)

/-- MapObject.is_within: the degenerate annulus (0, radius). -/
def is_within (p q : Int × Int) (radius : Int) : Bool :=
  is_in_range p q (0, radius)

/-- Base: a fixed position and a close range. -/
structure Base where
  pos : Int × Int
  range : Int × Int
  deriving DecidableEq, Repr

/-- Base.is_close_to. -/
def Base.is_close_to (b : Base) (p : Int × Int) : Bool :=
  is_in_range b.pos p b.range

/-- Ghost (MapActor): id, position, visibility flags, stamina, attackers. -/
structure Ghost where
  id : Int
  pos : Int × Int
  is_seen : Bool
  is_known : Bool
  stamina : Int
  attacking_busters : Int
  deriving DecidableEq, Repr

/-- Ghost.forget: invalidate the believed position. -/
def Ghost.forget (g : Ghost) : Ghost :=
  { g with is_known := false }

/-- Ghost.reset, run once per turn before the snapshot is applied. -/
def Ghost.reset (g : Ghost) : Ghost :=
  { g with is_seen := false }

/-- Buster (MapActor): the captured ghost is the index of the ghost in the
roster (Python stores an aliased reference to the roster element). -/
structure Buster where
  id : Int
  pos : Int × Int
  is_seen : Bool
  is_known : Bool
  captured_ghost : Option Nat
  base : Base
  stun_range : Int × Int
  stun_charge : Int
  stunned_counter : Int
  bust_range : Int × Int
  busting_ghost : Option Nat
  speed : Int
  deriving DecidableEq, Repr

/-- Default field values of the Buster constructor (Python kwargs defaults). -/
def defaultBuster : Buster :=
  { id := 0
    pos := (0, 0)
    is_seen := false
    is_known := false
    captured_ghost := none
    base := { pos := (0, 0), range := (0, 1600) }
    stun_range := (0, 1760)
    stun_charge := 0
    stunned_counter := 0
    bust_range := (900, 1760)
    busting_ghost := none
    speed := 800 }

/-- Buster.is_stunned. -/
def Buster.is_stunned (b : Buster) : Bool :=
  decide (b.stunned_counter ≠ 0)

/-- Buster.has_captured_ghost with no argument. -/
def Buster.has_captured_ghost (b : Buster) : Bool :=
  b.captured_ghost.isSome

/-- Buster.can_stun. -/
def Buster.can_stun (b target : Buster) : Bool :=
  decide (20 ≤ b.stun_charge) && !target.is_stunned && target.is_seen &&
    is_in_range b.pos target.pos b.stun_range

/-- Buster.can_bust. -/
def Buster.can_bust (b : Buster) (g : Ghost) : Bool :=
  g.is_seen && is_in_range b.pos g.pos b.bust_range

/-- Buster.is_too_close_to. -/
def Buster.is_too_close_to (b : Buster) (g : Ghost) : Bool :=
  is_within b.pos g.pos b.bust_range.1

/-- Buster.reset, run once per turn before the snapshot is applied. -/
def Buster.reset (b : Buster) : Buster :=
  { b with stunned_counter := 0, stun_charge := b.stun_charge + 1,
           is_seen := false }

/-- Effect of Buster.capture on the captured ghost. -/
def captureGhostFlags (g : Ghost) : Ghost :=
  { g with is_known := false, is_seen := false }

/-- Effect of ParsedMap.read_round on a ghost listed in the snapshot:
position set, both flags raised, stamina and attacker count updated. -/
def ghostSnapshot (g : Ghost) (x y state value : Int) : Ghost :=
  { g with pos := (x, y), is_seen := true, is_known := true,
           stamina := state, attacking_busters := value }

/-- Flag effect of ParsedMap.read_round on a buster listed in the snapshot
(the state and value updates touch no visibility flag except through
Buster.capture, treated separately). -/
def busterSnapshotFlags (b : Buster) (x y : Int) : Buster :=
  { b with pos := (x, y), is_seen := true, is_known := true }

/-! ### Exact integer computation of the float expressions

For a natural a and a positive natural D the real number a / sqrt D has
floor Nat.sqrt (a * a / D) (integer division): both say how many whole
multiples of sqrt D fit in a.  The ceiling adds one except when a * a =
f * f * D, in which case a / sqrt D is exactly the integer f.  From these
the floor, the ceiling and the truncation toward zero of s + N / sqrt D
are computed for arbitrary integers s and N. -/

/-- Integer square root by the binary method, driven by explicit fuel so
that the kernel can evaluate it on literals. -/
def sqrtAux : Nat → Nat → Nat
  | 0, n => n
  | f + 1, n =>
    if n < 2 then n
    else if (2 * sqrtAux f (n / 4) + 1) * (2 * sqrtAux f (n / 4) + 1) ≤ n
    then 2 * sqrtAux f (n / 4) + 1
    else 2 * sqrtAux f (n / 4)

/-- Integer square root: the largest k with k * k ≤ n. -/
def isqrt (n : Nat) : Nat :=
  sqrtAux n n

/-- Floor of a / sqrt D for naturals, D positive. -/
def sqrtQuotFloor (a D : Nat) : Nat :=
  isqrt (a * a / D)

/-- Ceiling of a / sqrt D for naturals, D positive. -/
def sqrtQuotCeil (a D : Nat) : Nat :=
  if a * a = sqrtQuotFloor a D * sqrtQuotFloor a D * D then sqrtQuotFloor a D
  else sqrtQuotFloor a D + 1

/-- Floor of N / sqrt D, N an integer, D a positive natural. -/
def sqrtDivFloor (N : Int) (D : Nat) : Int :=
  if 0 ≤ N then (sqrtQuotFloor N.toNat D : Int)
  else -(sqrtQuotCeil (-N).toNat D : Int)

/-- Truncation toward zero of N / sqrt D. -/
def truncQuot (N : Int) (D : Nat) : Int :=
  if 0 ≤ N then (sqrtQuotFloor N.toNat D : Int)
  else -(sqrtQuotFloor (-N).toNat D : Int)

/-- Truncation toward zero of s + N / sqrt D (the value int(...) returns in
Buster.next_step_between). -/
def truncAdd (s N : Int) (D : Nat) : Int :=
  if 0 ≤ s + sqrtDivFloor N D then s + sqrtDivFloor N D
  else if N * N = sqrtDivFloor N D * sqrtDivFloor N D * (D : Int) then
    s + sqrtDivFloor N D
  else s + sqrtDivFloor N D + 1

/-- Buster.next_step_between: exact arrival when the squared distance is at
most speed squared, otherwise the truncation toward zero of the point
speed units along the straight line. -/
def next_step_between (start goal : Int × Int) (speed : Int) : Int × Int :=
  let dx := goal.1 - start.1
  let dy := goal.2 - start.2
  let dist := dx * dx + dy * dy
  if dist ≤ speed * speed then goal
  else (truncAdd start.1 (speed * dx) dist.toNat,
        truncAdd start.2 (speed * dy) dist.toNat)

/-- Buster.step_towards. -/
def Buster.step_towards (b : Buster) (goal : Int × Int) : Buster :=
  { b with pos := next_step_between b.pos goal b.speed }

/-- BackingStrategy.keep_distance; r is the random pair drawn when the two
positions coincide (Python: randrange(0, 160000), randrange(0, 9000)). -/
def keep_distance (player enemy : Int × Int) (min_dist : Int)
    (r : Int × Int) : Int × Int :=
  let dx := player.1 - enemy.1
  let dy := player.2 - enemy.2
  let d := dx * dx + dy * dy
  if 0 < d then
    (enemy.1 + truncQuot (min_dist * dx) d.toNat,
     enemy.2 + truncQuot (min_dist * dy) d.toNat)
  else r

/-! ### World state, commands, strategy scratch fields -/

/-- World snapshot visible to one acting buster: the acting buster itself,
the two team lists and the ghost roster (Map.get_allies, get_enemies,
get_ghosts).  The acting buster is held apart from the ally list; its own
strategies never read it back through the list (get_allies is used only
for its length), so the Python aliasing is unobservable here. -/
structure World where
  buster : Buster
  allies : List Buster
  enemies : List Buster
  ghosts : List Ghost
  deriving DecidableEq, Repr

/-- One of the four commands a strategy can emit (GameController). -/
inductive Cmd where
  | move (pos : Int × Int)
  | release
  | stun (id : Int)
  | bust (id : Int)
  deriving DecidableEq, Repr

/-- Scratch fields of SeekingStrategy. -/
structure SeekScratch where
  seek_pos : Int × Int
  counter : Nat
  corners : List (Int × Int)
  deriving DecidableEq, Repr

/-- Scratch fields each strategy object stores on self between
is_applicable and execute. -/
structure Scratches where
  stun_enemy : Option Buster
  chase_enemy : Option Buster
  chase_pos : Option (Int × Int)
  bust_ghost : Option Ghost
  flee_enemies : List Buster
  back_ghost : Option Ghost
  seek : SeekScratch
  deriving Repr

/-- Full state threaded through a decision step: world, scratch fields,
and the random oracle (stream index ri). -/
structure GameS where
  w : World
  sc : Scratches
  rng : Nat → Int × Int
  ri : Nat

/-- Draw one random pair from the oracle. -/
def takeRand (s : GameS) : (Int × Int) × GameS :=
  (s.rng s.ri, { s with ri := s.ri + 1 })

/-! ### The nine strategies, in source order -/

/-- StunStrategy.is_applicable: filter enemies by can_stun; empty means
not applicable; otherwise prefer the first qualifying enemy carrying a
ghost, else the first qualifying enemy. -/
def stun_is_applicable (s : GameS) : Bool × GameS :=
  match s.w.enemies.filter (fun e => s.w.buster.can_stun e),
        (s.w.enemies.filter (fun e => s.w.buster.can_stun e)).filter
          (fun x => x.has_captured_ghost) with
  | [], _ => (false, s)
  | _ :: _, c :: _ => (true, { s with sc := { s.sc with stun_enemy := some c } })
  | e :: _, [] => (true, { s with sc := { s.sc with stun_enemy := some e } })

/-- StunStrategy.execute: zero the stun charge, stun the cached enemy.
The none branch is unreachable when execute follows a successful
is_applicable (the Python code would raise there). -/
def stun_execute (s : GameS) : GameS × Cmd :=
  let s' := { s with w := { s.w with buster := { s.w.buster with stun_charge := 0 } } }
  match s.sc.stun_enemy with
  | some e => (s', Cmd.stun e.id)
  | none => (s', Cmd.stun 0)

/-- ReleaseStrategy.is_applicable. -/
def release_is_applicable (s : GameS) : Bool × GameS :=
  (s.w.buster.has_captured_ghost && s.w.buster.base.is_close_to s.w.buster.pos, s)

/-- Clear the known flag of the ghost at index i of the roster
(the Python mutation self.buster.captured_ghost.is_known = False acts
through the alias into the roster). -/
def forgetAt (l : List Ghost) (i : Nat) : List Ghost :=
  match l.get? i with
  | some g => l.set i { g with is_known := false }
  | none => l

/-- ReleaseStrategy.execute. -/
def release_execute (s : GameS) : GameS × Cmd :=
  match s.w.buster.captured_ghost with
  | some i => ({ s with w := { s.w with ghosts := forgetAt s.w.ghosts i } }, Cmd.release)
  | none => (s, Cmd.release)

/-- HomingStrategy.is_applicable. -/
def homing_is_applicable (s : GameS) : Bool × GameS :=
  (s.w.buster.has_captured_ghost, s)

/-- HomingStrategy.execute. -/
def homing_execute (s : GameS) : GameS × Cmd :=
  (s, Cmd.move s.w.buster.base.pos)

/-- ChasingStrategy.enemy_keeps_ghost is the negation of this guard:
the simulation stops as soon as the cloned buster can stun the cloned
enemy or the cloned enemy is close to the base. -/
def chaseGuard (cb ce : Buster) (base : Base) : Bool :=
  cb.can_stun ce || base.is_close_to ce.pos

/-- The while loop of ChasingStrategy.is_applicable with explicit fuel:
while the guard fails, the enemy steps toward the base, then the buster
steps toward the new enemy position. -/
def chase_sim : Nat → Buster → Buster → Base → Option (Buster × Buster)
  | 0, _, _, _ => none
  | Nat.succ f, cb, ce, base =>
    if chaseGuard cb ce base then some (cb, ce)
    else
      let ce2 := ce.step_towards base.pos
      let cb2 := cb.step_towards ce2.pos
      chase_sim f cb2 ce2 base

/-- Fuel that the termination theorem proves sufficient: one unit per
point of squared distance between the enemy and its base, plus one. -/
def chase_fuel (ce : Buster) : Nat :=
  (distance_from ce.pos ce.base.pos).toNat + 1

/-- The body of the for loop of ChasingStrategy.is_applicable for one
enemy: run the simulation; if the simulated enemy ended close to its base
the enemy escapes (none), otherwise the interception point is the
simulated enemy position. -/
def chase_try (cb e : Buster) : Option (Int × Int) :=
  match chase_sim (chase_fuel e) cb e e.base with
  | some (_, ce) => if e.base.is_close_to ce.pos then none else some ce.pos
  | none => none

/-- The for loop of ChasingStrategy.is_applicable: first known
ghost-carrying enemy whose simulation ends away from the base. -/
def chase_scan (cb : Buster) : List Buster → Option (Buster × (Int × Int))
  | [] => none
  | e :: rest =>
    if e.is_known && e.has_captured_ghost then
      match chase_try cb e with
      | some p => some (e, p)
      | none => chase_scan cb rest
    else chase_scan cb rest

/-- ChasingStrategy.is_applicable. -/
def chasing_is_applicable (s : GameS) : Bool × GameS :=
  match chase_scan s.w.buster s.w.enemies with
  | some (e, p) =>
    (true, { s with sc := { s.sc with chase_enemy := some e, chase_pos := some p } })
  | none => (false, s)

/-- ChasingStrategy.execute.  The none branch is unreachable after a
successful is_applicable. -/
def chasing_execute (s : GameS) : GameS × Cmd :=
  match s.sc.chase_pos with
  | some p => (s, Cmd.move p)
  | none => (s, Cmd.move s.w.buster.pos)

/-- Python min with a key returns the first minimal element. -/
def minStamina (g : Ghost) (l : List Ghost) : Ghost :=
  l.foldl (fun a x => if x.stamina < a.stamina then x else a) g

/-- BustingStrategy.is_applicable: some ghost in bust range, cache the
one of least stamina (first on ties). -/
def busting_is_applicable (s : GameS) : Bool × GameS :=
  match s.w.ghosts.filter (fun g => s.w.buster.can_bust g) with
  | [] => (false, s)
  | g :: gs => (true, { s with sc := { s.sc with bust_ghost := some (minStamina g gs) } })

/-- BustingStrategy.execute: move instead of busting when the attacker
count already equals the total player count. -/
def busting_execute (s : GameS) : GameS × Cmd :=
  let players : Int := s.w.enemies.length + s.w.allies.length
  match s.sc.bust_ghost with
  | some g =>
    if g.attacking_busters = players then (s, Cmd.move g.pos)
    else (s, Cmd.bust g.id)
  | none => (s, Cmd.move s.w.buster.pos)

/-- FleeingStrategy.is_in_range: the one ad hoc range comparison of the
program, far bound inclusive (dist <= min_distance ** 2 on squared
distance). -/
def fleeing_is_in_range (b e : Int × Int) (min_distance : Int) : Bool :=
  decide (distance_from b e ≤ min_distance * min_distance)

/-- FleeingStrategy.will_be_able_to_stun. -/
def will_be_able_to_stun (e b : Buster) : Bool :=
  if !e.is_seen || decide (e.stun_charge < 19) || decide (1 ≤ e.stunned_counter) then
    false
  else
    fleeing_is_in_range b.pos e.pos (e.stun_range.2 + e.speed)

/-- FleeingStrategy.is_applicable: cache the threatening enemies, then
applicable when some exist and the own charge is below 19. -/
def fleeing_is_applicable (s : GameS) : Bool × GameS :=
  let es := s.w.enemies.filter (fun e => will_be_able_to_stun e s.w.buster)
  (!es.isEmpty && decide (s.w.buster.stun_charge < 19),
   { s with sc := { s.sc with flee_enemies := es } })

/-- FleeingStrategy.mean_pos_of_enemies (Python floor division). -/
def mean_pos_of_enemies (es : List Buster) : Int × Int :=
  let x := (es.map (fun e => e.pos.1)).foldl (· + ·) 0
  let y := (es.map (fun e => e.pos.2)).foldl (· + ·) 0
  (Int.fdiv x es.length, Int.fdiv y es.length)

/-- FleeingStrategy.means_of_enemies: a fresh default Buster at the mean
position, with the speed and stun range of the first threat. -/
def means_of_enemies (e0 : Buster) (es : List Buster) : Buster :=
  { defaultBuster with pos := mean_pos_of_enemies (e0 :: es),
                       speed := e0.speed, stun_range := e0.stun_range }

/-- FleeingStrategy.execute.  The empty branch is unreachable after a
successful is_applicable. -/
def fleeing_execute (s : GameS) : GameS × Cmd :=
  let (r, s') := takeRand s
  match s.sc.flee_enemies with
  | [] => (s', Cmd.move s.w.buster.pos)
  | e0 :: es =>
    let m := means_of_enemies e0 es
    let min_distance := m.stun_range.2 + m.speed + 1
    (s', Cmd.move (keep_distance s.w.buster.pos m.pos min_distance r))

/-- The for loop of BackingStrategy.is_applicable: first seen ghost the
buster is too close to. -/
def back_scan (b : Buster) : List Ghost → Option Ghost
  | [] => none
  | g :: rest =>
    if g.is_seen && b.is_too_close_to g then some g else back_scan b rest

/-- BackingStrategy.is_applicable. -/
def backing_is_applicable (s : GameS) : Bool × GameS :=
  match back_scan s.w.buster s.w.ghosts with
  | some g => (true, { s with sc := { s.sc with back_ghost := some g } })
  | none => (false, s)

/-- BackingStrategy.execute.  The none branch is unreachable after a
successful is_applicable. -/
def backing_execute (s : GameS) : GameS × Cmd :=
  let (r, s') := takeRand s
  match s.sc.back_ghost with
  | some g =>
    let min_dist := s.w.buster.bust_range.1 + 1
    (s', Cmd.move (keep_distance s.w.buster.pos g.pos min_dist r))
  | none => (s', Cmd.move s.w.buster.pos)

/-- The for loop of InterceptStrategy.is_applicable over the snapshot of
known ghosts: a known ghost at the buster position is forgotten and the
scan continues; the first known ghost elsewhere stops the scan with
success.  Unknown ghosts are skipped untouched. -/
def interceptScan (bpos : Int × Int) : List Ghost → Bool × List Ghost
  | [] => (false, [])
  | g :: rest =>
    if g.is_known then
      if bpos = g.pos then
        ((interceptScan bpos rest).1, g.forget :: (interceptScan bpos rest).2)
      else (true, g :: rest)
    else ((interceptScan bpos rest).1, g :: (interceptScan bpos rest).2)

/-- InterceptStrategy.is_applicable: the only is_applicable that mutates
the world (Ghost.forget through the roster alias). -/
def intercept_is_applicable (s : GameS) : Bool × GameS :=
  ((interceptScan s.w.buster.pos s.w.ghosts).1,
   { s with w := { s.w with ghosts := (interceptScan s.w.buster.pos s.w.ghosts).2 } })

/-- MapActor.get_closest_of followed by min on stamina: the ghosts at
minimal distance, in roster order, then the first of least stamina. -/
def closestLeastStamina (p : Int × Int) (g : Ghost) (gs : List Ghost) : Ghost :=
  let dmin := (gs.map (fun x => distance_from p x.pos)).foldl min (distance_from p g.pos)
  match (g :: gs).filter (fun x => distance_from p x.pos = dmin) with
  | [] => g
  | c :: cs => minStamina c cs

/-- InterceptStrategy.execute.  The empty branch is unreachable after a
successful is_applicable. -/
def intercept_execute (s : GameS) : GameS × Cmd :=
  match s.w.ghosts.filter (fun g => g.is_known) with
  | [] => (s, Cmd.move s.w.buster.pos)
  | g :: gs => (s, Cmd.move (closestLeastStamina s.w.buster.pos g gs).pos)

/-- SeekingStrategy.is_applicable: always true, no state change. -/
def seeking_is_applicable (s : GameS) : Bool × GameS :=
  (true, s)

/-- SeekingStrategy.execute: on reaching the target, either draw a fresh
random probe (counter positive) or rotate to the next corner and reset
the counter to 5; then move to the (possibly updated) target. -/
def seeking_execute (s : GameS) : GameS × Cmd :=
  let sk := s.sc.seek
  if s.w.buster.pos = sk.seek_pos then
    if sk.counter ≠ 0 then
      let (r, s') := takeRand s
      ({ s' with sc := { s'.sc with seek :=
          { sk with seek_pos := r, counter := sk.counter - 1 } } },
       Cmd.move r)
    else
      match sk.corners with
      | [] => (s, Cmd.move sk.seek_pos)
      | c :: rest =>
        ({ s with sc := { s.sc with seek :=
            { seek_pos := c, counter := 5, corners := rest ++ [c] } } },
         Cmd.move c)
  else (s, Cmd.move sk.seek_pos)

/-! ### The strategy selector (Buster.step) -/

/-- One strategy: the applicability test and the action. -/
structure Strat where
  is_applicable : GameS → Bool × GameS
  execute : GameS → GameS × Cmd

/-- Buster.STRATEGIES, in the fixed priority order of the source. -/
def STRATEGIES : List Strat :=
  [ ⟨stun_is_applicable, stun_execute⟩,
    ⟨release_is_applicable, release_execute⟩,
    ⟨homing_is_applicable, homing_execute⟩,
    ⟨chasing_is_applicable, chasing_execute⟩,
    ⟨busting_is_applicable, busting_execute⟩,
    ⟨fleeing_is_applicable, fleeing_execute⟩,
    ⟨backing_is_applicable, backing_execute⟩,
    ⟨intercept_is_applicable, intercept_execute⟩,
    ⟨seeking_is_applicable, seeking_execute⟩ ]

/-- The for loop of Buster.step: run is_applicable down the list, execute
the first applicable strategy and stop. -/
def select_first : List Strat → GameS → Option (GameS × Cmd)
  | [], _ => none
  | st :: rest, s =>
    let (b, s') := st.is_applicable s
    if b then some (st.execute s') else select_first rest s'

/-- Buster.step. -/
def step (s : GameS) : Option (GameS × Cmd) :=
  select_first STRATEGIES s

/-! ### Specification-side definitions -/

/-- Truncation toward zero of a real number, the semantics of the Python
int(...) conversion applied to a float. -/
noncomputable def truncR (x : ℝ) : ℤ :=
  if 0 ≤ x then ⌊x⌋ else ⌈x⌉

/-- Modelled from the spec: the exact (unrounded) point speed units from
start along the straight line toward goal, the value the spec ascribes to
stepToward before the integer arena truncation. -/
noncomputable def spec_step_exact (start goal : Int × Int) (speed : Int) : ℝ × ℝ :=
  let dx : ℝ := (goal.1 : ℝ) - (start.1 : ℝ)
  let dy : ℝ := (goal.2 : ℝ) - (start.2 : ℝ)
  let u : ℝ := Real.sqrt ((distance_from start goal : ℤ) : ℝ)
  ((start.1 : ℝ) + speed * dx / u, (start.2 : ℝ) + speed * dy / u)

/-- One alternating simulation step of the chase: the enemy advances
toward the base, then the buster advances toward the new enemy position. -/
def chase_pair_step (base : Base) (p : Buster × Buster) : Buster × Buster :=
  let ce2 := p.2.step_towards base.pos
  (p.1.step_towards ce2.pos, ce2)

/-- The simulated pair after n alternating steps. -/
def chase_state (cb ce : Buster) (base : Base) (n : Nat) : Buster × Buster :=
  (chase_pair_step base)^[n] (cb, ce)

/-- Declarative interception: at the first simulated state where the
chase guard holds, the enemy is not yet close to its base (so the guard
holds because the buster can stun it). -/
def intercepted (cb e : Buster) (n : Nat) : Prop :=
  (∀ m, m < n →
    chaseGuard (chase_state cb e e.base m).1 (chase_state cb e e.base m).2 e.base = false) ∧
  chaseGuard (chase_state cb e e.base n).1 (chase_state cb e e.base n).2 e.base = true ∧
  e.base.is_close_to (chase_state cb e e.base n).2.pos = false

/-- Parameters under which the chase simulation is proved to terminate:
the speed and base radii the program actually uses (800 and (0, 1600))
satisfy them. -/
def simOk (e : Buster) : Prop :=
  2 ≤ e.speed ∧ e.base.range.1 = 0 ∧ 1 ≤ e.base.range.2

/-- Invariant of the data model: a seen ghost is known. -/
def ghostSeenImpKnown (g : Ghost) : Prop :=
  g.is_seen = true → g.is_known = true

/-- Invariant of the data model: a seen buster is known. -/
def busterSeenImpKnown (b : Buster) : Prop :=
  b.is_seen = true → b.is_known = true

/-- Map dimensions (the Map constructor). -/
def map_width : Int := 16000

/-- Map dimensions (the Map constructor). -/
def map_height : Int := 9000

/-- A position inside the 16000 x 9000 arena. -/
def in_arena (p : Int × Int) : Prop :=
  0 ≤ p.1 ∧ p.1 ≤ map_width ∧ 0 ≤ p.2 ∧ p.2 ≤ map_height

/-- Fresh scratch fields, as right after the strategy constructors (the
seek position of the constructor is random; any fixed value serves the
concrete test states used below). -/
def emptyScratches : Scratches :=
  { stun_enemy := none
    chase_enemy := none
    chase_pos := none
    bust_ghost := none
    flee_enemies := []
    back_ghost := none
    seek := { seek_pos := (0, 0), counter := 0,
              corners := [(16000, 0), (0, 0), (0, 9000), (16000, 9000)] } }

/-- Deterministic oracle used by the concrete test states. -/
def zeroRng : Nat → Int × Int := fun _ => (0, 0)

/-- Package a world with fresh scratches and the deterministic oracle. -/
def mkGameS (w : World) : GameS :=
  { w := w, sc := emptyScratches, rng := zeroRng, ri := 0 }

/-! ### Concrete test fixtures used by witnesses and counterexamples -/

/-- A ghost-carrying enemy 1000 units from its base, for the chase tests. -/
def c6Enemy : Buster :=
  { defaultBuster with pos := (1000, 0), is_seen := true, is_known := true,
                       captured_ghost := some 0 }

/-- A chasing buster far from the enemy base. -/
def c6Chaser : Buster :=
  { defaultBuster with pos := (5000, 0) }

/-- A ghost-carrying enemy far from its base and already in stun range of
the acting buster. -/
def c2Enemy : Buster :=
  { defaultBuster with pos := (5000, 0), is_seen := true, is_known := true,
                       captured_ghost := some 0 }

/-- An acting buster with a full stun charge next to the carrying enemy. -/
def c2Buster : Buster :=
  { defaultBuster with pos := (5500, 0), stun_charge := 20 }

/-- World for the chase characterization witness. -/
def c2World : World :=
  { buster := c2Buster, allies := [], enemies := [c2Enemy], ghosts := [] }

/-- A seen and known ghost being carried. -/
def c3Ghost : Ghost :=
  { id := 0, pos := (100, 0), is_seen := true, is_known := true,
    stamina := 3, attacking_busters := 0 }

/-- A buster carrying ghost 0 close to its base. -/
def c3Buster : Buster :=
  { defaultBuster with pos := (100, 0), captured_ghost := some 0 }

/-- World for the release tests. -/
def c3World : World :=
  { buster := c3Buster, allies := [], enemies := [], ghosts := [c3Ghost] }

/-- A seen ghost one unit from the buster, inside the near bust radius. -/
def c4Ghost : Ghost :=
  { id := 0, pos := (1, 0), is_seen := true, is_known := true,
    stamina := 3, attacking_busters := 0 }

/-- World for the back-off counterexample: the buster sits at the origin,
one unit from the ghost. -/
def c4World : World :=
  { buster := defaultBuster, allies := [], enemies := [], ghosts := [c4Ghost] }

/-- A seen enemy with a full stun charge at the origin. -/
def c7Enemy : Buster :=
  { defaultBuster with pos := (0, 0), is_seen := true, is_known := true,
                       stun_charge := 20 }

/-- A buster exactly stun_far_radius + enemy_speed = 2560 units away. -/
def c7Buster : Buster :=
  { defaultBuster with pos := (2560, 0) }

/-- A seen enemy in stun range carrying nothing. -/
def c8Enemy1 : Buster :=
  { defaultBuster with id := 3, pos := (1000, 0), is_seen := true,
                       is_known := true }

/-- A seen enemy in stun range carrying a ghost. -/
def c8Enemy2 : Buster :=
  { defaultBuster with id := 4, pos := (1200, 0), is_seen := true,
                       is_known := true, captured_ghost := some 0 }

/-- An acting buster with a full stun charge. -/
def c8Buster : Buster :=
  { defaultBuster with stun_charge := 20 }

/-- World for the stun-selection witness. -/
def c8World : World :=
  { buster := c8Buster, allies := [], enemies := [c8Enemy1, c8Enemy2],
    ghosts := [] }

/-- A seen and known ghost exactly at the acting buster position. -/
def c9Ghost : Ghost :=
  { id := 0, pos := (0, 0), is_seen := true, is_known := true,
    stamina := 3, attacking_busters := 0 }

/-- World in which InterceptStrategy.is_applicable forgets the coincident
ghost. -/
def c9World : World :=
  { buster := defaultBuster, allies := [], enemies := [], ghosts := [c9Ghost] }

/-- A seen and known ghost far from the acting buster, outside every
range, so that only Intercept applies. -/
def c10Ghost : Ghost :=
  { id := 0, pos := (5000, 5000), is_seen := true, is_known := true,
    stamina := 3, attacking_busters := 0 }

/-- World for the invariant-preservation witness: the default buster and
one distant known ghost. -/
def c10World : World :=
  { buster := defaultBuster, allies := [], enemies := [], ghosts := [c10Ghost] }

/-! ### Selector characterization -/

/-- Every strategy of the list rejects, each evaluated in the state left
behind by the previous applicability tests. -/
def all_reject : List Strat → GameS → Prop
  | [], _ => True
  | st :: rest, s =>
    (st.is_applicable s).1 = false ∧ all_reject rest (st.is_applicable s).2

/-- The state left behind after the applicability tests of a rejected
prefix of the strategy list. -/
def after_reject : List Strat → GameS → GameS
  | [], s => s
  | st :: rest, s => after_reject rest (st.is_applicable s).2

theorem select_first_first_applicable (l : List Strat) (s : GameS)
    (h : ∃ st ∈ l, ∀ t : GameS, (st.is_applicable t).1 = true) :
    ∃ pre st post, l = pre ++ st :: post ∧ all_reject pre s ∧
      (st.is_applicable (after_reject pre s)).1 = true ∧
      select_first l s = some (st.execute (st.is_applicable (after_reject pre s)).2) := by
  induction l generalizing s with
  | nil => obtain ⟨st, hst, _⟩ := h; simp at hst
  | cons st0 rest ih =>
    by_cases h0 : (st0.is_applicable s).1 = true
    · refine ⟨[], st0, rest, rfl, trivial, h0, ?_⟩
      simp only [select_first, h0, if_true]
      rfl
    · have h0f : (st0.is_applicable s).1 = false := by
        cases hb : (st0.is_applicable s).1
        · rfl
        · exact absurd hb h0
      have hrest : ∃ st ∈ rest, ∀ t : GameS, (st.is_applicable t).1 = true := by
        obtain ⟨st, hst, hc⟩ := h
        rcases List.mem_cons.mp hst with rfl | hst'
        · exact absurd (hc s) h0
        · exact ⟨st, hst', hc⟩
      obtain ⟨pre, st, post, hl, hrej, happ, hsel⟩ :=
        ih (st0.is_applicable s).2 hrest
      refine ⟨st0 :: pre, st, post, by rw [hl]; rfl, ⟨h0f, hrej⟩, happ, ?_⟩
      simpa only [select_first, h0f, Bool.false_eq_true, if_false] using hsel

/-- C1: for every state of an ally buster, Buster.step emits exactly one
command (step always returns some pair, whose second component is the one
command of the executed strategy): the strategy list splits as a rejected
prefix followed by the first strategy whose is_applicable returns true
(in the fixed order Stun, Release, Home, Chase, Bust, Flee, Back-off,
Intercept, Seek baked into STRATEGIES), and the emitted command is that
strategy's execute.  The existence argument is discharged by Seek, whose
is_applicable is unconditionally true, so no state lacks a command. -/
theorem C1_step_emits_first_applicable (s : GameS) :
    ∃ pre st post, STRATEGIES = pre ++ st :: post ∧ all_reject pre s ∧
      (st.is_applicable (after_reject pre s)).1 = true ∧
      step s = some (st.execute (st.is_applicable (after_reject pre s)).2) := by
  refine select_first_first_applicable STRATEGIES s ?_
  exact ⟨⟨seeking_is_applicable, seeking_execute⟩, by simp [STRATEGIES],
    fun t => rfl⟩

/-! ### Correctness of the integer square root helpers -/

theorem sqrtAux_spec : ∀ f n, n ≤ f →
    sqrtAux f n * sqrtAux f n ≤ n ∧ n < (sqrtAux f n + 1) * (sqrtAux f n + 1) := by
  intro f
  induction f with
  | zero =>
    intro n hn
    have : n = 0 := Nat.le_zero.mp hn
    subst this
    simp [sqrtAux]
  | succ f ih =>
    intro n hn
    by_cases h2 : n < 2
    · have he : sqrtAux (f + 1) n = n := by
        simp [sqrtAux, h2]
      rw [he]
      interval_cases n <;> simp
    · push_neg at h2
      have hdiv : n / 4 ≤ f := by
        have : n / 4 < n := Nat.div_lt_self (by omega) (by omega)
        omega
      obtain ⟨hlo, hhi⟩ := ih (n / 4) hdiv
      have h4 : 4 * (sqrtAux f (n / 4) * sqrtAux f (n / 4)) ≤ n := by omega
      have h5 : n < 4 * ((sqrtAux f (n / 4) + 1) * (sqrtAux f (n / 4) + 1)) := by
        have := (Nat.div_lt_iff_lt_mul (show 0 < 4 by norm_num)).mp hhi
        omega
      have he : sqrtAux (f + 1) n =
          if (2 * sqrtAux f (n / 4) + 1) * (2 * sqrtAux f (n / 4) + 1) ≤ n
          then 2 * sqrtAux f (n / 4) + 1 else 2 * sqrtAux f (n / 4) := by
        simp [sqrtAux, Nat.not_lt.mpr h2]
      by_cases hc : (2 * sqrtAux f (n / 4) + 1) * (2 * sqrtAux f (n / 4) + 1) ≤ n
      · rw [he, if_pos hc]
        constructor
        · exact hc
        · have hring : (2 * sqrtAux f (n / 4) + 1 + 1) * (2 * sqrtAux f (n / 4) + 1 + 1) =
              4 * ((sqrtAux f (n / 4) + 1) * (sqrtAux f (n / 4) + 1)) := by ring
          omega
      · rw [he, if_neg hc]
        constructor
        · have hring : 2 * sqrtAux f (n / 4) * (2 * sqrtAux f (n / 4)) =
              4 * (sqrtAux f (n / 4) * sqrtAux f (n / 4)) := by ring
          omega
        · omega

theorem isqrt_le (n : Nat) : isqrt n * isqrt n ≤ n :=
  (sqrtAux_spec n n le_rfl).1

theorem lt_isqrt_succ (n : Nat) : n < (isqrt n + 1) * (isqrt n + 1) :=
  (sqrtAux_spec n n le_rfl).2

/-! ### The integer helpers compute the real floor, ceiling, truncation -/

theorem sqrtQuotFloor_eq (a D : Nat) (hD : 0 < D) :
    (sqrtQuotFloor a D : ℤ) = ⌊(a : ℝ) / Real.sqrt D⌋ := by
  have hsD : (0 : ℝ) < Real.sqrt D :=
    Real.sqrt_pos.mpr (by exact_mod_cast hD)
  symm
  rw [Int.floor_eq_iff]
  constructor
  · rw [le_div_iff hsD]
    have h1 : (sqrtQuotFloor a D * sqrtQuotFloor a D) * D ≤ a * a := by
      have := isqrt_le (a * a / D)
      exact Nat.le_trans (Nat.mul_le_mul_right D this) (Nat.div_mul_le_self (a * a) D)
    have key : Real.sqrt ((sqrtQuotFloor a D * sqrtQuotFloor a D * D : ℕ) : ℝ) ≤
        Real.sqrt ((a * a : ℕ) : ℝ) := by
      apply Real.sqrt_le_sqrt
      exact_mod_cast h1
    rw [show ((sqrtQuotFloor a D * sqrtQuotFloor a D * D : ℕ) : ℝ) =
        ((sqrtQuotFloor a D : ℝ)) ^ 2 * (D : ℝ) by push_cast; ring,
      Real.sqrt_mul (by positivity), Real.sqrt_sq (by positivity)] at key
    rw [show ((a * a : ℕ) : ℝ) = (a : ℝ) ^ 2 by push_cast; ring,
      Real.sqrt_sq (by positivity)] at key
    push_cast
    push_cast at key
    linarith
  · rw [div_lt_iff hsD]
    have h2 : a * a < (sqrtQuotFloor a D + 1) * (sqrtQuotFloor a D + 1) * D := by
      have := lt_isqrt_succ (a * a / D)
      exact (Nat.div_lt_iff_lt_mul hD).mp this
    have key : Real.sqrt ((a * a : ℕ) : ℝ) <
        Real.sqrt (((sqrtQuotFloor a D + 1) * (sqrtQuotFloor a D + 1) * D : ℕ) : ℝ) := by
      apply Real.sqrt_lt_sqrt (by positivity)
      exact_mod_cast h2
    rw [show ((a * a : ℕ) : ℝ) = (a : ℝ) ^ 2 by push_cast; ring,
      Real.sqrt_sq (by positivity)] at key
    rw [show (((sqrtQuotFloor a D + 1) * (sqrtQuotFloor a D + 1) * D : ℕ) : ℝ) =
        ((sqrtQuotFloor a D : ℝ) + 1) ^ 2 * (D : ℝ) by push_cast; ring,
      Real.sqrt_mul (by positivity), Real.sqrt_sq (by positivity)] at key
    push_cast
    push_cast at key
    linarith

theorem sqrt_exact_of_sq (a k D : Nat) (hk : a * a = k * k * D) :
    (a : ℝ) = (k : ℝ) * Real.sqrt D := by
  have hk' : ((a : ℝ)) * a = ((k : ℝ) * k) * D := by exact_mod_cast hk
  have hDD : Real.sqrt D * Real.sqrt D = (D : ℝ) :=
    Real.mul_self_sqrt (by positivity)
  have h1 : ((a : ℝ)) ^ 2 = ((k : ℝ) * Real.sqrt D) ^ 2 := by
    linear_combination hk' - ((k : ℝ) * k) * hDD
  have h2 : (0 : ℝ) ≤ (a : ℝ) := by positivity
  have h3 : (0 : ℝ) ≤ (k : ℝ) * Real.sqrt D := by positivity
  have h4 := congrArg Real.sqrt h1
  rwa [Real.sqrt_sq h2, Real.sqrt_sq h3] at h4

theorem sqrtQuotCeil_eq (a D : Nat) (hD : 0 < D) :
    (sqrtQuotCeil a D : ℤ) = ⌈(a : ℝ) / Real.sqrt D⌉ := by
  have hsD : (0 : ℝ) < Real.sqrt D :=
    Real.sqrt_pos.mpr (by exact_mod_cast hD)
  have hfl := sqrtQuotFloor_eq a D hD
  by_cases hex : a * a = sqrtQuotFloor a D * sqrtQuotFloor a D * D
  · have hval : (a : ℝ) / Real.sqrt D = ((sqrtQuotFloor a D : ℤ) : ℝ) := by
      rw [div_eq_iff (ne_of_gt hsD)]
      push_cast
      exact sqrt_exact_of_sq a (sqrtQuotFloor a D) D hex
    have hcf : sqrtQuotCeil a D = sqrtQuotFloor a D := by
      unfold sqrtQuotCeil
      rw [if_pos hex]
    rw [hcf, hval, Int.ceil_intCast]
  · have hcf : sqrtQuotCeil a D = sqrtQuotFloor a D + 1 := by
      unfold sqrtQuotCeil
      rw [if_neg hex]
    have hle : ((sqrtQuotFloor a D : ℤ) : ℝ) ≤ (a : ℝ) / Real.sqrt D := by
      rw [hfl]
      exact Int.floor_le _
    have hlt : ((sqrtQuotFloor a D : ℤ) : ℝ) < (a : ℝ) / Real.sqrt D := by
      rcases lt_or_eq_of_le hle with h | h
      · exact h
      · exfalso
        apply hex
        have ha : (a : ℝ) = ((sqrtQuotFloor a D : ℤ) : ℝ) * Real.sqrt D :=
          (div_eq_iff (ne_of_gt hsD)).mp h.symm
        have hDD : Real.sqrt D * Real.sqrt D = (D : ℝ) :=
          Real.mul_self_sqrt (by positivity)
        have hcast : ((a * a : ℕ) : ℝ) =
            ((sqrtQuotFloor a D * sqrtQuotFloor a D * D : ℕ) : ℝ) := by
          push_cast
          push_cast at ha
          rw [ha]
          linear_combination ((sqrtQuotFloor a D : ℝ) * (sqrtQuotFloor a D : ℝ)) * hDD
        exact_mod_cast hcast
    have hub : (a : ℝ) / Real.sqrt D < ((sqrtQuotFloor a D : ℤ) : ℝ) + 1 := by
      rw [hfl]
      exact Int.lt_floor_add_one _
    rw [hcf]
    symm
    rw [Int.ceil_eq_iff]
    constructor
    · push_cast
      push_cast at hlt
      linarith
    · push_cast
      push_cast at hub
      linarith

theorem sqrtDivFloor_eq (N : Int) (D : Nat) (hD : 0 < D) :
    sqrtDivFloor N D = ⌊(N : ℝ) / Real.sqrt D⌋ := by
  by_cases hN : 0 ≤ N
  · unfold sqrtDivFloor
    rw [if_pos hN]
    have hcast : ((N.toNat : ℕ) : ℝ) = (N : ℝ) := by
      exact_mod_cast Int.toNat_of_nonneg hN
    rw [← hcast]
    exact_mod_cast sqrtQuotFloor_eq N.toNat D hD
  · unfold sqrtDivFloor
    rw [if_neg hN]
    push_neg at hN
    have hNeg : (((-N).toNat : ℕ) : ℝ) = -(N : ℝ) := by
      have h0 : (0 : ℤ) ≤ -N := by omega
      exact_mod_cast Int.toNat_of_nonneg h0
    have hrw : (N : ℝ) / Real.sqrt D = -((((-N).toNat : ℕ) : ℝ) / Real.sqrt D) := by
      rw [hNeg]
      ring
    rw [hrw, Int.floor_neg, ← sqrtQuotCeil_eq (-N).toNat D hD]

theorem truncQuot_eq (N : Int) (D : Nat) (hD : 0 < D) :
    truncQuot N D = truncR ((N : ℝ) / Real.sqrt D) := by
  have hsD : (0 : ℝ) < Real.sqrt D :=
    Real.sqrt_pos.mpr (by exact_mod_cast hD)
  by_cases hN : 0 ≤ N
  · have hv : (0 : ℝ) ≤ (N : ℝ) / Real.sqrt D := by
      apply div_nonneg _ (le_of_lt hsD)
      exact_mod_cast hN
    unfold truncQuot truncR
    rw [if_pos hN, if_pos hv]
    have hcast : ((N.toNat : ℕ) : ℝ) = (N : ℝ) := by
      exact_mod_cast Int.toNat_of_nonneg hN
    rw [← hcast]
    exact_mod_cast sqrtQuotFloor_eq N.toNat D hD
  · push_neg at hN
    have hNr : (N : ℝ) < 0 := by exact_mod_cast hN
    have hv : ¬ (0 : ℝ) ≤ (N : ℝ) / Real.sqrt D := by
      push_neg
      exact div_neg_of_neg_of_pos hNr hsD
    unfold truncQuot truncR
    rw [if_neg (by omega : ¬ 0 ≤ N), if_neg hv]
    have hNeg : (((-N).toNat : ℕ) : ℝ) = -(N : ℝ) := by
      have h0 : (0 : ℤ) ≤ -N := by omega
      exact_mod_cast Int.toNat_of_nonneg h0
    have hrw : (N : ℝ) / Real.sqrt D = -((((-N).toNat : ℕ) : ℝ) / Real.sqrt D) := by
      rw [hNeg]
      ring
    rw [hrw, Int.ceil_neg, ← sqrtQuotFloor_eq (-N).toNat D hD]

theorem truncAdd_eq (s N : Int) (D : Nat) (hD : 0 < D) :
    truncAdd s N D = truncR ((s : ℝ) + (N : ℝ) / Real.sqrt D) := by
  have hsD : (0 : ℝ) < Real.sqrt D :=
    Real.sqrt_pos.mpr (by exact_mod_cast hD)
  have hDD : Real.sqrt D * Real.sqrt D = (D : ℝ) :=
    Real.mul_self_sqrt (by positivity)
  set v : ℝ := (s : ℝ) + (N : ℝ) / Real.sqrt D with hv
  have hfl : ⌊v⌋ = s + sqrtDivFloor N D := by
    rw [hv, Int.floor_int_add, sqrtDivFloor_eq N D hD]
  by_cases hpos : 0 ≤ s + sqrtDivFloor N D
  · have h0v : (0 : ℝ) ≤ v := by
      have h0 : (0 : ℤ) ≤ ⌊v⌋ := by
        rw [hfl]
        exact hpos
      have := Int.le_floor.mp h0
      exact_mod_cast this
    unfold truncAdd truncR
    rw [if_pos hpos, if_pos h0v]
    exact hfl.symm
  · have hvneg : ¬ (0 : ℝ) ≤ v := by
      intro h
      apply hpos
      rw [← hfl]
      exact Int.le_floor.mpr (by exact_mod_cast h)
    unfold truncAdd truncR
    rw [if_neg hpos, if_neg hvneg]
    by_cases hex : N * N = sqrtDivFloor N D * sqrtDivFloor N D * (D : Int)
    · rw [if_pos hex]
      have hexR : ((N : ℝ)) * N = ((sqrtDivFloor N D : ℝ) * (sqrtDivFloor N D : ℝ)) * D := by
        exact_mod_cast hex
      have hsq : ((N : ℝ) / Real.sqrt D) ^ 2 = ((sqrtDivFloor N D : ℝ)) ^ 2 := by
        rw [div_pow, Real.sq_sqrt (by positivity : (0 : ℝ) ≤ (D : ℝ))]
        rw [div_eq_iff (by positivity : ((D : ℕ) : ℝ) ≠ 0)]
        linear_combination hexR
      have hg : (N : ℝ) / Real.sqrt D = (sqrtDivFloor N D : ℝ) := by
        rcases sq_eq_sq_iff_eq_or_eq_neg.mp hsq with h | h
        · exact h
        · have hfg : ⌊(N : ℝ) / Real.sqrt D⌋ = sqrtDivFloor N D :=
            (sqrtDivFloor_eq N D hD).symm
          rw [h] at hfg
          have hcast : (-(sqrtDivFloor N D : ℝ)) = ((-(sqrtDivFloor N D) : ℤ) : ℝ) := by
            push_cast
            ring
          rw [hcast, Int.floor_intCast] at hfg
          have hg0 : sqrtDivFloor N D = 0 := by omega
          rw [h, hg0]
          norm_num
      have hvInt : v = ((s + sqrtDivFloor N D : ℤ) : ℝ) := by
        rw [hv, hg]
        push_cast
        ring
      rw [hvInt, Int.ceil_intCast]
    · rw [if_neg hex]
      have hflv : ((⌊v⌋ : ℤ) : ℝ) < v := by
        rcases lt_or_eq_of_le (Int.floor_le v) with h | h
        · exact h
        · exfalso
          apply hex
          have hg : (N : ℝ) / Real.sqrt D = (sqrtDivFloor N D : ℝ) := by
            have h2 : ((s + sqrtDivFloor N D : ℤ) : ℝ) = v := by
              rw [← hfl]
              exact h
            rw [hv] at h2
            push_cast at h2
            linarith
          have hN2 : (N : ℝ) = (sqrtDivFloor N D : ℝ) * Real.sqrt D :=
            (div_eq_iff (ne_of_gt hsD)).mp hg
          have hcast : ((N * N : ℤ) : ℝ) =
              ((sqrtDivFloor N D * sqrtDivFloor N D * (D : Int) : ℤ) : ℝ) := by
            push_cast
            rw [hN2]
            linear_combination ((sqrtDivFloor N D : ℝ) * (sqrtDivFloor N D : ℝ)) * hDD
          exact_mod_cast hcast
      symm
      rw [Int.ceil_eq_iff]
      constructor
      · have h2 : ((s + sqrtDivFloor N D : ℤ) : ℝ) < v := by
          rw [← hfl]
          exact hflv
        push_cast
        push_cast at h2
        linarith
      · have h2 : v < ((s + sqrtDivFloor N D : ℤ) : ℝ) + 1 := by
          rw [← hfl]
          exact Int.lt_floor_add_one v
        push_cast
        push_cast at h2
        linarith

theorem truncR_close (x : ℝ) : |(truncR x : ℝ) - x| < 1 := by
  rw [truncR]
  by_cases h : 0 ≤ x
  · rw [if_pos h, abs_lt]
    constructor
    · linarith [Int.lt_floor_add_one x]
    · linarith [Int.floor_le x]
  · rw [if_neg h, abs_lt]
    constructor
    · linarith [Int.le_ceil x]
    · linarith [Int.ceil_lt_add_one x]

theorem distance_from_nonneg (p q : Int × Int) : 0 ≤ distance_from p q := by
  unfold distance_from
  nlinarith [mul_self_nonneg (p.1 - q.1), mul_self_nonneg (p.2 - q.2)]

theorem next_step_eq_trunc (start goal : Int × Int) (speed : Int)
    (h : speed * speed < distance_from start goal) :
    next_step_between start goal speed =
      (truncR (spec_step_exact start goal speed).1,
       truncR (spec_step_exact start goal speed).2) := by
  have hdist : distance_from start goal =
      (goal.1 - start.1) * (goal.1 - start.1) +
        (goal.2 - start.2) * (goal.2 - start.2) := by
    unfold distance_from
    ring
  have hd0 : 0 < distance_from start goal :=
    lt_of_le_of_lt (mul_self_nonneg speed) h
  have hexpr0 : 0 < (goal.1 - start.1) * (goal.1 - start.1) +
      (goal.2 - start.2) * (goal.2 - start.2) := hdist ▸ hd0
  have hnotle : ¬ ((goal.1 - start.1) * (goal.1 - start.1) +
      (goal.2 - start.2) * (goal.2 - start.2) ≤ speed * speed) := by
    rw [← hdist]
    exact not_le.mpr h
  have hDpos : 0 < ((goal.1 - start.1) * (goal.1 - start.1) +
      (goal.2 - start.2) * (goal.2 - start.2)).toNat := by omega
  have hcastD : ((((goal.1 - start.1) * (goal.1 - start.1) +
      (goal.2 - start.2) * (goal.2 - start.2)).toNat : ℕ) : ℝ) =
      ((distance_from start goal : ℤ) : ℝ) := by
    rw [hdist]
    exact_mod_cast congrArg (fun z : ℤ => (z : ℝ))
      (Int.toNat_of_nonneg (le_of_lt hexpr0))
  simp only [next_step_between, spec_step_exact]
  rw [if_neg hnotle]
  rw [truncAdd_eq start.1 (speed * (goal.1 - start.1)) _ hDpos,
    truncAdd_eq start.2 (speed * (goal.2 - start.2)) _ hDpos]
  rw [hcastD]
  have e1 : ((speed * (goal.1 - start.1) : ℤ) : ℝ) =
      (speed : ℝ) * ((goal.1 : ℝ) - (start.1 : ℝ)) := by
    push_cast
    ring
  have e2 : ((speed * (goal.2 - start.2) : ℤ) : ℝ) =
      (speed : ℝ) * ((goal.2 : ℝ) - (start.2 : ℝ)) := by
    push_cast
    ring
  rw [e1, e2]

theorem spec_step_dist_start (start goal : Int × Int) (speed : Int)
    (hs : 0 ≤ speed) (h : speed * speed < distance_from start goal) :
    Real.sqrt (((spec_step_exact start goal speed).1 - (start.1 : ℝ)) ^ 2 +
      ((spec_step_exact start goal speed).2 - (start.2 : ℝ)) ^ 2) = (speed : ℝ) := by
  have hd0 : 0 < distance_from start goal :=
    lt_of_le_of_lt (mul_self_nonneg speed) h
  have hdR : (0 : ℝ) < ((distance_from start goal : ℤ) : ℝ) := by exact_mod_cast hd0
  simp only [spec_step_exact]
  set u : ℝ := Real.sqrt ((distance_from start goal : ℤ) : ℝ) with hudef
  set dx : ℝ := (goal.1 : ℝ) - (start.1 : ℝ) with hdx
  set dy : ℝ := (goal.2 : ℝ) - (start.2 : ℝ) with hdy
  have hu : (0 : ℝ) < u := Real.sqrt_pos.mpr hdR
  have hune : u ≠ 0 := ne_of_gt hu
  have hu2 : u * u = dx ^ 2 + dy ^ 2 := by
    rw [hudef, Real.mul_self_sqrt (le_of_lt hdR)]
    unfold distance_from
    push_cast
    ring
  have hsum : ((start.1 : ℝ) + (speed : ℝ) * dx / u - (start.1 : ℝ)) ^ 2 +
      ((start.2 : ℝ) + (speed : ℝ) * dy / u - (start.2 : ℝ)) ^ 2 =
      ((speed : ℝ)) ^ 2 := by
    have step1 : ((start.1 : ℝ) + (speed : ℝ) * dx / u - (start.1 : ℝ)) ^ 2 +
        ((start.2 : ℝ) + (speed : ℝ) * dy / u - (start.2 : ℝ)) ^ 2 =
        ((speed : ℝ)) ^ 2 * (dx ^ 2 + dy ^ 2) / (u * u) := by
      field_simp
      ring
    rw [step1, ← hu2, mul_div_assoc, div_self (mul_ne_zero hune hune), mul_one]
  rw [hsum, Real.sqrt_sq (by exact_mod_cast hs)]

theorem spec_step_dist_goal (start goal : Int × Int) (speed : Int)
    (hs : 0 ≤ speed) (h : speed * speed < distance_from start goal) :
    Real.sqrt (((spec_step_exact start goal speed).1 - (goal.1 : ℝ)) ^ 2 +
      ((spec_step_exact start goal speed).2 - (goal.2 : ℝ)) ^ 2) =
      Real.sqrt ((distance_from start goal : ℤ) : ℝ) - (speed : ℝ) := by
  have hd0 : 0 < distance_from start goal :=
    lt_of_le_of_lt (mul_self_nonneg speed) h
  have hdR : (0 : ℝ) < ((distance_from start goal : ℤ) : ℝ) := by exact_mod_cast hd0
  simp only [spec_step_exact]
  set u : ℝ := Real.sqrt ((distance_from start goal : ℤ) : ℝ) with hudef
  set dx : ℝ := (goal.1 : ℝ) - (start.1 : ℝ) with hdx
  set dy : ℝ := (goal.2 : ℝ) - (start.2 : ℝ) with hdy
  have hu : (0 : ℝ) < u := Real.sqrt_pos.mpr hdR
  have hune : u ≠ 0 := ne_of_gt hu
  have hu2 : u * u = dx ^ 2 + dy ^ 2 := by
    rw [hudef, Real.mul_self_sqrt (le_of_lt hdR)]
    unfold distance_from
    push_cast
    ring
  have hsu : (speed : ℝ) < u := by
    have hsq : ((speed : ℝ)) ^ 2 < ((distance_from start goal : ℤ) : ℝ) := by
      have hc : ((speed * speed : ℤ) : ℝ) < ((distance_from start goal : ℤ) : ℝ) := by
        exact_mod_cast h
      push_cast at hc
      nlinarith [hc]
    have hlt := Real.sqrt_lt_sqrt (sq_nonneg ((speed : ℝ))) hsq
    rwa [Real.sqrt_sq (by exact_mod_cast hs)] at hlt
  have hsum : ((start.1 : ℝ) + (speed : ℝ) * dx / u - (goal.1 : ℝ)) ^ 2 +
      ((start.2 : ℝ) + (speed : ℝ) * dy / u - (goal.2 : ℝ)) ^ 2 =
      (u - (speed : ℝ)) ^ 2 := by
    have hg1 : (start.1 : ℝ) - (goal.1 : ℝ) = -dx := by rw [hdx]; ring
    have step1 : ((start.1 : ℝ) + (speed : ℝ) * dx / u - (goal.1 : ℝ)) ^ 2 +
        ((start.2 : ℝ) + (speed : ℝ) * dy / u - (goal.2 : ℝ)) ^ 2 =
        (dx ^ 2 + dy ^ 2) * ((speed : ℝ) - u) ^ 2 / (u * u) := by
      rw [show (start.1 : ℝ) = (goal.1 : ℝ) - dx by rw [hdx]; ring,
        show (start.2 : ℝ) = (goal.2 : ℝ) - dy by rw [hdy]; ring]
      field_simp
      ring
    rw [step1, ← hu2]
    rw [show u * u * ((speed : ℝ) - u) ^ 2 / (u * u) =
      ((speed : ℝ) - u) ^ 2 * ((u * u) / (u * u)) by ring]
    rw [div_self (mul_ne_zero hune hune), mul_one]
    ring
  rw [hsum, Real.sqrt_sq (by linarith)]

set_option maxHeartbeats 2000000 in
theorem next_step_between_closer (start goal : Int × Int) (speed : Int)
    (h2 : 2 ≤ speed) (h : speed * speed < distance_from start goal) :
    distance_from (next_step_between start goal speed) goal <
      distance_from start goal := by
  have hs : 0 ≤ speed := by omega
  have hd0 : 0 < distance_from start goal :=
    lt_of_le_of_lt (mul_self_nonneg speed) h
  have hdR : (0 : ℝ) < ((distance_from start goal : ℤ) : ℝ) := by exact_mod_cast hd0
  have hE := next_step_eq_trunc start goal speed h
  rw [hE]
  have hgoal := spec_step_dist_goal start goal speed hs h
  have hstart := spec_step_dist_start start goal speed hs h
  set u : ℝ := Real.sqrt ((distance_from start goal : ℤ) : ℝ) with hudef
  have hu : (0 : ℝ) < u := Real.sqrt_pos.mpr hdR
  have hu2 : u * u = ((distance_from start goal : ℤ) : ℝ) :=
    Real.mul_self_sqrt (le_of_lt hdR)
  have hsR : (0 : ℝ) ≤ (speed : ℝ) := by exact_mod_cast hs
  have hs2R : (2 : ℝ) ≤ (speed : ℝ) := by exact_mod_cast h2
  have hsu : (speed : ℝ) < u := by
    have hsq : ((speed : ℝ)) ^ 2 < ((distance_from start goal : ℤ) : ℝ) := by
      have hc : ((speed * speed : ℤ) : ℝ) < ((distance_from start goal : ℤ) : ℝ) := by
        exact_mod_cast h
      push_cast at hc
      nlinarith [hc]
    have hlt := Real.sqrt_lt_sqrt (sq_nonneg ((speed : ℝ))) hsq
    rwa [Real.sqrt_sq hsR] at hlt
  set A : ℝ := (spec_step_exact start goal speed).1 - (goal.1 : ℝ) with hAdef
  set B : ℝ := (spec_step_exact start goal speed).2 - (goal.2 : ℝ) with hBdef
  set d1 : ℝ := ((truncR (spec_step_exact start goal speed).1 : ℤ) : ℝ) -
    (spec_step_exact start goal speed).1 with hd1def
  set d2 : ℝ := ((truncR (spec_step_exact start goal speed).2 : ℤ) : ℝ) -
    (spec_step_exact start goal speed).2 with hd2def
  have habs1 : |d1| < 1 := by
    rw [hd1def]
    exact truncR_close _
  have habs2 : |d2| < 1 := by
    rw [hd2def]
    exact truncR_close _
  clear_value d1 d2 A B
  have hAB : A ^ 2 + B ^ 2 = (u - (speed : ℝ)) ^ 2 := by
    rw [← hgoal, Real.sq_sqrt (by positivity)]
  have hABnn : (0 : ℝ) ≤ u - (speed : ℝ) := by linarith
  have hAle : |A| ≤ u - (speed : ℝ) := by
    have h1 : |A| = Real.sqrt (A ^ 2) := (Real.sqrt_sq_eq_abs A).symm
    rw [h1, ← hgoal]
    exact Real.sqrt_le_sqrt (by nlinarith [sq_nonneg B])
  have hBle : |B| ≤ u - (speed : ℝ) := by
    have h1 : |B| = Real.sqrt (B ^ 2) := (Real.sqrt_sq_eq_abs B).symm
    rw [h1, ← hgoal]
    exact Real.sqrt_le_sqrt (by nlinarith [sq_nonneg A])
  have hA1 : A * d1 ≤ u - (speed : ℝ) := by
    calc A * d1 ≤ |A * d1| := le_abs_self _
      _ = |A| * |d1| := abs_mul _ _
      _ ≤ (u - (speed : ℝ)) * 1 :=
        mul_le_mul hAle (le_of_lt habs1) (abs_nonneg _) hABnn
      _ = u - (speed : ℝ) := mul_one _
  have hB1 : B * d2 ≤ u - (speed : ℝ) := by
    calc B * d2 ≤ |B * d2| := le_abs_self _
      _ = |B| * |d2| := abs_mul _ _
      _ ≤ (u - (speed : ℝ)) * 1 :=
        mul_le_mul hBle (le_of_lt habs2) (abs_nonneg _) hABnn
      _ = u - (speed : ℝ) := mul_one _
  have hd1sq : d1 ^ 2 < 1 := by
    rw [← sq_abs d1]
    exact pow_lt_one (abs_nonneg d1) habs1 (by norm_num)
  have hd2sq : d2 ^ 2 < 1 := by
    rw [← sq_abs d2]
    exact pow_lt_one (abs_nonneg d2) habs2 (by norm_num)
  have hcast : ((distance_from
      (truncR (spec_step_exact start goal speed).1,
       truncR (spec_step_exact start goal speed).2) goal : ℤ) : ℝ) =
      (A + d1) ^ 2 + (B + d2) ^ 2 := by
    unfold distance_from
    push_cast
    rw [hd1def, hd2def, hAdef, hBdef]
    ring
  have hkey : (0 : ℝ) ≤ (u - (speed : ℝ)) * ((speed : ℝ) - 2) :=
    mul_nonneg hABnn (by linarith)
  have hfinal : (A + d1) ^ 2 + (B + d2) ^ 2 < u * u := by
    have hexp : (A + d1) ^ 2 + (B + d2) ^ 2 =
        (A ^ 2 + B ^ 2) + 2 * (A * d1 + B * d2) + (d1 ^ 2 + d2 ^ 2) := by
      ring
    rw [hexp, hAB]
    nlinarith [hkey, hs2R, hsu, sq_nonneg ((speed : ℝ) - 2)]
  have hR : ((distance_from
      (truncR (spec_step_exact start goal speed).1,
       truncR (spec_step_exact start goal speed).2) goal : ℤ) : ℝ) <
      ((distance_from start goal : ℤ) : ℝ) := by
    rw [hcast, ← hu2]
    exact hfinal
  exact_mod_cast hR

/-- C5 counterexample: at pos = (0,0), goal = (2000,1000), speed = 800 the
code takes the far branch, returns (715, 357), and the squared distance of
the result from pos is 638674, whose square root is not 800: the result
does not lie exactly speed units from pos, contradicting the claim. -/
theorem C5_counterexample :
    800 * 800 < distance_from (0, 0) (2000, 1000) ∧
    next_step_between (0, 0) (2000, 1000) 800 = (715, 357) ∧
    distance_from (0, 0) (next_step_between (0, 0) (2000, 1000) 800) = 638674 ∧
    Real.sqrt ((distance_from (0, 0)
      (next_step_between (0, 0) (2000, 1000) 800) : ℤ) : ℝ) ≠ (800 : ℝ) := by
  have hd : distance_from (0, 0) (next_step_between (0, 0) (2000, 1000) 800) =
      638674 := by decide
  refine ⟨by decide, by decide, hd, ?_⟩
  rw [hd]
  intro hcontra
  have h1 : ((638674 : ℤ) : ℝ) = (638674 : ℝ) := by norm_num
  rw [h1] at hcontra
  have h2 := Real.mul_self_sqrt (show (0 : ℝ) ≤ 638674 by norm_num)
  rw [hcontra] at h2
  norm_num at h2

/-- C5 amended: for nonnegative speed, if the squared distance from pos to
goal is at most speed squared (the code compares squares; for nonnegative
speed this is the claim's distance(pos, goal) ≤ speed), the result is
goal exactly and a further step from goal keeps returning goal
(idempotence once reached).  Otherwise the exact (unrounded) point lies
exactly speed units from pos along the pos-goal line and exactly
distance(pos, goal) − speed from goal, and the returned value is the
coordinatewise truncation toward zero of that exact point — not itself
exactly speed units from pos, as the counterexample shows. -/
theorem C5_next_step_between_spec (start goal : Int × Int) (speed : Int)
    (hs : 0 ≤ speed) :
    (distance_from start goal ≤ speed * speed →
      next_step_between start goal speed = goal ∧
      next_step_between goal goal speed = goal) ∧
    (speed * speed < distance_from start goal →
      next_step_between start goal speed =
        (truncR (spec_step_exact start goal speed).1,
         truncR (spec_step_exact start goal speed).2) ∧
      Real.sqrt (((spec_step_exact start goal speed).1 - (start.1 : ℝ)) ^ 2 +
        ((spec_step_exact start goal speed).2 - (start.2 : ℝ)) ^ 2) = (speed : ℝ) ∧
      Real.sqrt (((spec_step_exact start goal speed).1 - (goal.1 : ℝ)) ^ 2 +
        ((spec_step_exact start goal speed).2 - (goal.2 : ℝ)) ^ 2) =
        Real.sqrt ((distance_from start goal : ℤ) : ℝ) - (speed : ℝ)) := by
  constructor
  · intro hle
    have hdist : distance_from start goal =
        (goal.1 - start.1) * (goal.1 - start.1) +
          (goal.2 - start.2) * (goal.2 - start.2) := by
      unfold distance_from
      ring
    constructor
    · simp only [next_step_between]
      rw [if_pos (by rw [← hdist]; exact hle)]
    · simp only [next_step_between]
      rw [if_pos (by
        have hz : (goal.1 - goal.1) * (goal.1 - goal.1) +
            (goal.2 - goal.2) * (goal.2 - goal.2) = 0 := by ring
        rw [hz]
        exact mul_self_nonneg speed)]
  · intro hlt
    exact ⟨next_step_eq_trunc start goal speed hlt,
      spec_step_dist_start start goal speed hs hlt,
      spec_step_dist_goal start goal speed hs hlt⟩

/-- C5 witness: the amended theorem applied at the concrete counterexample
input, with its hypothesis discharged there. -/
theorem C5_witness :
    (0 : ℤ) ≤ 800 ∧
    ((distance_from ((0 : ℤ), (0 : ℤ)) (2000, 1000) ≤ 800 * 800 →
      next_step_between (0, 0) (2000, 1000) 800 = (2000, 1000) ∧
      next_step_between (2000, 1000) (2000, 1000) 800 = (2000, 1000)) ∧
    (800 * 800 < distance_from ((0 : ℤ), (0 : ℤ)) (2000, 1000) →
      next_step_between (0, 0) (2000, 1000) 800 =
        (truncR (spec_step_exact (0, 0) (2000, 1000) 800).1,
         truncR (spec_step_exact (0, 0) (2000, 1000) 800).2) ∧
      Real.sqrt (((spec_step_exact (0, 0) (2000, 1000) 800).1 - ((0 : ℤ) : ℝ)) ^ 2 +
        ((spec_step_exact (0, 0) (2000, 1000) 800).2 - ((0 : ℤ) : ℝ)) ^ 2) =
        ((800 : ℤ) : ℝ) ∧
      Real.sqrt (((spec_step_exact (0, 0) (2000, 1000) 800).1 - ((2000 : ℤ) : ℝ)) ^ 2 +
        ((spec_step_exact (0, 0) (2000, 1000) 800).2 - ((1000 : ℤ) : ℝ)) ^ 2) =
        Real.sqrt ((distance_from ((0 : ℤ), (0 : ℤ)) (2000, 1000) : ℤ) : ℝ) -
          ((800 : ℤ) : ℝ))) :=
  ⟨by decide, C5_next_step_between_spec (0, 0) (2000, 1000) 800 (by decide)⟩

/-! ### Chase simulation: characterization and termination -/

theorem distance_from_comm (p q : Int × Int) :
    distance_from p q = distance_from q p := by
  unfold distance_from
  ring

theorem next_step_between_arrive (start goal : Int × Int) (speed : Int)
    (h : distance_from start goal ≤ speed * speed) :
    next_step_between start goal speed = goal := by
  have hdist : distance_from start goal =
      (goal.1 - start.1) * (goal.1 - start.1) +
        (goal.2 - start.2) * (goal.2 - start.2) := by
    unfold distance_from
    ring
  simp only [next_step_between]
  rw [if_pos (by rw [← hdist]; exact h)]

theorem chase_sim_some_spec : ∀ (fuel : Nat) (cb ce : Buster) (base : Base)
    (p : Buster × Buster), chase_sim fuel cb ce base = some p →
    ∃ n, n < fuel ∧
      (∀ m, m < n → chaseGuard (chase_state cb ce base m).1
        (chase_state cb ce base m).2 base = false) ∧
      chaseGuard p.1 p.2 base = true ∧
      p = chase_state cb ce base n := by
  intro fuel
  induction fuel with
  | zero =>
    intro cb ce base p h
    simp [chase_sim] at h
  | succ f ih =>
    intro cb ce base p h
    by_cases hg : chaseGuard cb ce base = true
    · have hp : p = (cb, ce) := by
        have h2 : some (cb, ce) = some p := by
          simpa only [chase_sim, hg, if_true] using h
        exact (Option.some_inj.mp h2).symm
      refine ⟨0, Nat.succ_pos f, ?_, ?_, ?_⟩
      · intro m hm
        omega
      · rw [hp]
        exact hg
      · rw [hp]
        rfl
    · have hg' : chaseGuard cb ce base = false := by
        cases hgb : chaseGuard cb ce base
        · rfl
        · exact absurd hgb hg
      have hrec : chase_sim f (cb.step_towards (ce.step_towards base.pos).pos)
          (ce.step_towards base.pos) base = some p := by
        simpa only [chase_sim, hg', Bool.false_eq_true, if_false] using h
      obtain ⟨n, hn, hall, hguard, hpn⟩ := ih _ _ base p hrec
      have hstep : chase_pair_step base (cb, ce) =
          (cb.step_towards (ce.step_towards base.pos).pos,
           ce.step_towards base.pos) := rfl
      refine ⟨n + 1, by omega, ?_, hguard, ?_⟩
      · intro m hm
        cases m with
        | zero =>
          simpa using hg'
        | succ m' =>
          have hm' := hall m' (by omega)
          show chaseGuard ((chase_pair_step base)^[m' + 1] (cb, ce)).1
            ((chase_pair_step base)^[m' + 1] (cb, ce)).2 base = false
          rw [Function.iterate_succ_apply, hstep]
          exact hm'
      · show p = (chase_pair_step base)^[n + 1] (cb, ce)
        rw [Function.iterate_succ_apply, hstep]
        exact hpn

theorem chase_sim_reaches : ∀ (k : Nat) (cb ce : Buster) (base : Base),
    2 ≤ ce.speed → base.range.1 = 0 → 1 ≤ base.range.2 →
    (distance_from ce.pos base.pos).toNat ≤ k →
    ∃ p, chase_sim (k + 1) cb ce base = some p := by
  intro k
  induction k with
  | zero =>
    intro cb ce base h2 hnear hfar hd
    have hd0 : distance_from ce.pos base.pos = 0 := by
      have := distance_from_nonneg ce.pos base.pos
      omega
    have hclose : base.is_close_to ce.pos = true := by
      unfold Base.is_close_to is_in_range
      rw [hnear]
      have hcomm : distance_from base.pos ce.pos = 0 := by
        rw [distance_from_comm]
        exact hd0
      rw [hcomm]
      simp only [Bool.and_eq_true, decide_eq_true_eq]
      constructor
      · omega
      · nlinarith [hfar]
    have hg : chaseGuard cb ce base = true := by
      unfold chaseGuard
      rw [hclose]
      simp
    refine ⟨(cb, ce), ?_⟩
    simp [chase_sim, hg]
  | succ k ih =>
    intro cb ce base h2 hnear hfar hd
    by_cases hg : chaseGuard cb ce base = true
    · refine ⟨(cb, ce), ?_⟩
      simp [chase_sim, hg]
    · have hg' : chaseGuard cb ce base = false := by
        cases hgb : chaseGuard cb ce base
        · rfl
        · exact absurd hgb hg
      have hclose_f : base.is_close_to ce.pos = false := by
        unfold chaseGuard at hg'
        exact (Bool.or_eq_false_iff.mp hg').2
      have hdge : base.range.2 * base.range.2 ≤ distance_from base.pos ce.pos := by
        unfold Base.is_close_to is_in_range at hclose_f
        rw [hnear] at hclose_f
        simp only [Bool.and_eq_false_iff, decide_eq_false_iff_not, not_le, not_lt]
          at hclose_f
        rcases hclose_f with h | h
        · exfalso
          have := distance_from_nonneg base.pos ce.pos
          omega
        · exact h
      have hdpos : 0 < distance_from ce.pos base.pos := by
        rw [distance_from_comm]
        nlinarith [hfar, hdge]
      have hlt : distance_from (ce.step_towards base.pos).pos base.pos <
          distance_from ce.pos base.pos := by
        by_cases hsp : distance_from ce.pos base.pos ≤ ce.speed * ce.speed
        · have harr : (ce.step_towards base.pos).pos = base.pos := by
            show next_step_between ce.pos base.pos ce.speed = base.pos
            exact next_step_between_arrive ce.pos base.pos ce.speed hsp
          rw [harr]
          have hzz : distance_from base.pos base.pos = 0 := by
            unfold distance_from
            ring
          rw [hzz]
          exact hdpos
        · push_neg at hsp
          exact next_step_between_closer ce.pos base.pos ce.speed h2 hsp
      have hspeed2 : 2 ≤ (ce.step_towards base.pos).speed := h2
      have hfk : (distance_from (ce.step_towards base.pos).pos base.pos).toNat ≤ k := by
        have h0 := distance_from_nonneg (ce.step_towards base.pos).pos base.pos
        omega
      obtain ⟨p, hp⟩ := ih (cb.step_towards (ce.step_towards base.pos).pos)
        (ce.step_towards base.pos) base hspeed2 hnear hfar hfk
      refine ⟨p, ?_⟩
      simpa only [chase_sim, hg', Bool.false_eq_true, if_false] using hp

theorem first_guard_unique (cb ce : Buster) (base : Base) (n1 n2 : Nat)
    (h1 : ∀ m, m < n1 → chaseGuard (chase_state cb ce base m).1
      (chase_state cb ce base m).2 base = false)
    (g1 : chaseGuard (chase_state cb ce base n1).1
      (chase_state cb ce base n1).2 base = true)
    (h2 : ∀ m, m < n2 → chaseGuard (chase_state cb ce base m).1
      (chase_state cb ce base m).2 base = false)
    (g2 : chaseGuard (chase_state cb ce base n2).1
      (chase_state cb ce base n2).2 base = true) : n1 = n2 := by
  rcases lt_trichotomy n1 n2 with h | h | h
  · have := h2 n1 h
    rw [this] at g1
    exact absurd g1 (by simp)
  · exact h
  · have := h1 n2 h
    rw [this] at g2
    exact absurd g2 (by simp)

/-- C6: for the parameters the program constructs (enemy speed 800 and
bases with range (0, 1600); any speed at least 2 and close radius at
least 1 suffice), the while loop of ChasingStrategy.is_applicable
terminates within chase_fuel iterations (one per point of initial squared
enemy-base distance), ending in a state where the cloned buster can stun
the cloned enemy or the cloned enemy is close to its base. -/
theorem C6_chase_sim_terminates (cb ce : Buster) (h2 : 2 ≤ ce.speed)
    (hnear : ce.base.range.1 = 0) (hfar : 1 ≤ ce.base.range.2) :
    ∃ p, chase_sim (chase_fuel ce) cb ce ce.base = some p ∧
      (p.1.can_stun p.2 = true ∨ ce.base.is_close_to p.2.pos = true) := by
  obtain ⟨p, hp⟩ := chase_sim_reaches (distance_from ce.pos ce.base.pos).toNat
    cb ce ce.base h2 hnear hfar le_rfl
  refine ⟨p, hp, ?_⟩
  obtain ⟨n, _, _, hguard, _⟩ := chase_sim_some_spec _ _ _ _ _ hp
  unfold chaseGuard at hguard
  exact Bool.or_eq_true_iff.mp hguard

/-- C6 witness: the termination theorem at a concrete pair (the enemy sits
1000 units from its base, inside the close radius, so the simulation stops
at once with the base-reached outcome). -/
theorem C6_witness :
    2 ≤ c6Enemy.speed ∧ c6Enemy.base.range.1 = 0 ∧ 1 ≤ c6Enemy.base.range.2 ∧
    (∃ p, chase_sim (chase_fuel c6Enemy) c6Chaser c6Enemy c6Enemy.base = some p ∧
      (p.1.can_stun p.2 = true ∨ c6Enemy.base.is_close_to p.2.pos = true)) :=
  ⟨by decide, by decide, by decide,
    C6_chase_sim_terminates c6Chaser c6Enemy (by decide) (by decide) (by decide)⟩
theorem chase_try_some_iff (cb e : Buster) (h2 : 2 ≤ e.speed)
    (hnear : e.base.range.1 = 0) (hfar : 1 ≤ e.base.range.2) (p : Int × Int) :
    chase_try cb e = some p ↔
      ∃ n, intercepted cb e n ∧ p = (chase_state cb e e.base n).2.pos := by
  obtain ⟨q, hq⟩ := chase_sim_reaches (distance_from e.pos e.base.pos).toNat
    cb e e.base h2 hnear hfar le_rfl
  have hqfuel : chase_sim (chase_fuel e) cb e e.base = some q := hq
  obtain ⟨n0, hn0, hall0, hg0, hq0⟩ := chase_sim_some_spec _ _ _ _ _ hqfuel
  obtain ⟨qb, qe⟩ := q
  have hg0' : chaseGuard (chase_state cb e e.base n0).1
      (chase_state cb e e.base n0).2 e.base = true := by
    rw [← hq0]
    exact hg0
  have hshow : chase_try cb e =
      (if e.base.is_close_to qe.pos then none else some qe.pos) := by
    unfold chase_try
    rw [hqfuel]
  by_cases hcl : e.base.is_close_to qe.pos = true
  · rw [hshow, if_pos hcl]
    constructor
    · intro h
      exact absurd h (by simp)
    · rintro ⟨n, ⟨hall, hg, hncl⟩, hp⟩
      exfalso
      have hn_eq : n = n0 := first_guard_unique cb e e.base n n0 hall hg hall0 hg0'
      rw [hn_eq, ← hq0] at hncl
      rw [hcl] at hncl
      exact absurd hncl (by simp)
  · have hclf : e.base.is_close_to qe.pos = false := by
      cases hb : e.base.is_close_to qe.pos
      · rfl
      · exact absurd hb hcl
    rw [hshow, if_neg hcl]
    constructor
    · intro h
      have hp : p = qe.pos := (Option.some_inj.mp h).symm
      have hqe2 : qe = (chase_state cb e e.base n0).2 := by rw [← hq0]
      refine ⟨n0, ⟨hall0, ?_, ?_⟩, ?_⟩
      · rw [← hq0]
        exact hg0
      · rw [← hq0]
        exact hclf
      · rw [hp, hqe2]
    · rintro ⟨n, ⟨hall, hg, hncl⟩, hp⟩
      have hn_eq : n = n0 := first_guard_unique cb e e.base n n0 hall hg hall0 hg0'
      rw [hn_eq] at hp
      have hqe2 : (chase_state cb e e.base n0).2 = qe := by rw [← hq0]
      rw [hqe2] at hp
      rw [hp]

theorem chase_try_none_iff (cb e : Buster) (h2 : 2 ≤ e.speed)
    (hnear : e.base.range.1 = 0) (hfar : 1 ≤ e.base.range.2) :
    chase_try cb e = none ↔ ¬ ∃ n, intercepted cb e n := by
  constructor
  · rintro h ⟨n, hint⟩
    have := (chase_try_some_iff cb e h2 hnear hfar
      ((chase_state cb e e.base n).2.pos)).mpr ⟨n, hint, rfl⟩
    rw [h] at this
    exact Option.noConfusion this
  · intro h
    cases hc : chase_try cb e with
    | none => rfl
    | some p =>
      exfalso
      obtain ⟨n, hint, _⟩ := (chase_try_some_iff cb e h2 hnear hfar p).mp hc
      exact h ⟨n, hint⟩

theorem chase_scan_some_spec (cb : Buster) : ∀ (l : List Buster),
    (∀ e ∈ l, 2 ≤ e.speed ∧ e.base.range.1 = 0 ∧ 1 ≤ e.base.range.2) →
    ∀ e p, chase_scan cb l = some (e, p) →
      ∃ pre post, l = pre ++ e :: post ∧
        (∀ e2 ∈ pre, ¬ (e2.is_known = true ∧ e2.has_captured_ghost = true ∧
          ∃ n, intercepted cb e2 n)) ∧
        e.is_known = true ∧ e.has_captured_ghost = true ∧
        ∃ n, intercepted cb e n ∧ p = (chase_state cb e e.base n).2.pos := by
  intro l
  induction l with
  | nil =>
    intro _ e p h
    simp [chase_scan] at h
  | cons a rest ih =>
    intro hok e p h
    have hoka := hok a (List.mem_cons_self a rest)
    have hokrest : ∀ e2 ∈ rest, 2 ≤ e2.speed ∧ e2.base.range.1 = 0 ∧
        1 ≤ e2.base.range.2 :=
      fun e2 he2 => hok e2 (List.mem_cons_of_mem a he2)
    by_cases hk : (a.is_known && a.has_captured_ghost) = true
    · cases hc : chase_try cb a with
      | some p0 =>
        have h2 : some (a, p0) = some (e, p) := by
          have h3 : chase_scan cb (a :: rest) = some (a, p0) := by
            simp only [chase_scan, hk, if_true, hc]
          rw [← h3]
          exact h
        have hae : a = e := congrArg Prod.fst (Option.some_inj.mp h2)
        have hpp : p0 = p := congrArg Prod.snd (Option.some_inj.mp h2)
        subst hae
        subst hpp
        obtain ⟨hk1, hk2⟩ := Bool.and_eq_true_iff.mp hk
        obtain ⟨n, hint, hpos⟩ :=
          (chase_try_some_iff cb a hoka.1 hoka.2.1 hoka.2.2 p0).mp hc
        exact ⟨[], rest, rfl, by simp, hk1, hk2, n, hint, hpos⟩
      | none =>
        have h2 : chase_scan cb rest = some (e, p) := by
          have h3 : chase_scan cb (a :: rest) = chase_scan cb rest := by
            simp only [chase_scan, hk, if_true, hc]
          rw [← h3]
          exact h
        obtain ⟨pre, post, hl, hpre, hk1, hk2, hex⟩ := ih hokrest e p h2
        refine ⟨a :: pre, post, by rw [hl]; rfl, ?_, hk1, hk2, hex⟩
        intro e2 he2
        rcases List.mem_cons.mp he2 with rfl | he2'
        · rintro ⟨_, _, hexa⟩
          exact ((chase_try_none_iff cb e2 hoka.1 hoka.2.1 hoka.2.2).mp hc) hexa
        · exact hpre e2 he2'
    · have hkf : (a.is_known && a.has_captured_ghost) = false := by
        cases hb : (a.is_known && a.has_captured_ghost)
        · rfl
        · exact absurd hb hk
      have h2 : chase_scan cb rest = some (e, p) := by
        have h3 : chase_scan cb (a :: rest) = chase_scan cb rest := by
          simp only [chase_scan, hkf, Bool.false_eq_true, if_false]
        rw [← h3]
        exact h
      obtain ⟨pre, post, hl, hpre, hk1, hk2, hex⟩ := ih hokrest e p h2
      refine ⟨a :: pre, post, by rw [hl]; rfl, ?_, hk1, hk2, hex⟩
      intro e2 he2
      rcases List.mem_cons.mp he2 with rfl | he2'
      · rintro ⟨h1, h2', _⟩
        rw [h1, h2'] at hkf
        simp at hkf
      · exact hpre e2 he2'

theorem chase_scan_none_iff (cb : Buster) : ∀ (l : List Buster),
    (∀ e ∈ l, 2 ≤ e.speed ∧ e.base.range.1 = 0 ∧ 1 ≤ e.base.range.2) →
    (chase_scan cb l = none ↔ ∀ e ∈ l, ¬ (e.is_known = true ∧
      e.has_captured_ghost = true ∧ ∃ n, intercepted cb e n)) := by
  intro l
  induction l with
  | nil =>
    intro _
    simp [chase_scan]
  | cons a rest ih =>
    intro hok
    have hoka := hok a (List.mem_cons_self a rest)
    have hokrest : ∀ e2 ∈ rest, 2 ≤ e2.speed ∧ e2.base.range.1 = 0 ∧
        1 ≤ e2.base.range.2 :=
      fun e2 he2 => hok e2 (List.mem_cons_of_mem a he2)
    by_cases hk : (a.is_known && a.has_captured_ghost) = true
    · cases hc : chase_try cb a with
      | some p0 =>
        have h3 : chase_scan cb (a :: rest) = some (a, p0) := by
          simp only [chase_scan, hk, if_true, hc]
        rw [h3]
        constructor
        · intro h
          exact absurd h (by simp)
        · intro h
          exfalso
          obtain ⟨hk1, hk2⟩ := Bool.and_eq_true_iff.mp hk
          obtain ⟨n, hint, _⟩ :=
            (chase_try_some_iff cb a hoka.1 hoka.2.1 hoka.2.2 p0).mp hc
          exact h a (List.mem_cons_self a rest) ⟨hk1, hk2, n, hint⟩
      | none =>
        have h3 : chase_scan cb (a :: rest) = chase_scan cb rest := by
          simp only [chase_scan, hk, if_true, hc]
        rw [h3, ih hokrest]
        constructor
        · intro h e he
          rcases List.mem_cons.mp he with rfl | he'
          · rintro ⟨_, _, hexa⟩
            exact ((chase_try_none_iff cb e hoka.1 hoka.2.1 hoka.2.2).mp hc) hexa
          · exact h e he'
        · intro h e he'
          exact h e (List.mem_cons_of_mem a he')
    · have hkf : (a.is_known && a.has_captured_ghost) = false := by
        cases hb : (a.is_known && a.has_captured_ghost)
        · rfl
        · exact absurd hb hk
      have h3 : chase_scan cb (a :: rest) = chase_scan cb rest := by
        simp only [chase_scan, hkf, Bool.false_eq_true, if_false]
      rw [h3, ih hokrest]
      constructor
      · intro h e he
        rcases List.mem_cons.mp he with rfl | he'
        · rintro ⟨h1, h2', _⟩
          rw [h1, h2'] at hkf
          simp at hkf
        · exact h e he'
      · intro h e he'
        exact h e (List.mem_cons_of_mem a he')

/-- C2: under the parameters the program uses (enemy speed 800, bases with
range (0, 1600); speed at least 2 and close radius at least 1 suffice for
the simulation to settle), ChasingStrategy.is_applicable returns true
exactly when some known ghost-carrying enemy is intercepted by the
alternating simulation (the simulated buster can stun the simulated enemy
at the first stopping state, before the enemy is close to its base), the
cached target is the first such enemy in enumeration order, and the cached
move position is that enemy's simulated position at interception. -/
theorem C2_chasing_is_applicable_spec (s : GameS)
    (hok : ∀ e ∈ s.w.enemies, 2 ≤ e.speed ∧ e.base.range.1 = 0 ∧
      1 ≤ e.base.range.2) :
    ((chasing_is_applicable s).1 = true ↔
      ∃ e ∈ s.w.enemies, e.is_known = true ∧ e.has_captured_ghost = true ∧
        ∃ n, intercepted s.w.buster e n) ∧
    (∀ e p, chase_scan s.w.buster s.w.enemies = some (e, p) →
      (chasing_is_applicable s).1 = true ∧
      (chasing_is_applicable s).2.sc.chase_enemy = some e ∧
      (chasing_is_applicable s).2.sc.chase_pos = some p ∧
      ∃ pre post, s.w.enemies = pre ++ e :: post ∧
        (∀ e2 ∈ pre, ¬ (e2.is_known = true ∧ e2.has_captured_ghost = true ∧
          ∃ n, intercepted s.w.buster e2 n)) ∧
        e.is_known = true ∧ e.has_captured_ghost = true ∧
        ∃ n, intercepted s.w.buster e n ∧
          p = (chase_state s.w.buster e e.base n).2.pos) := by
  constructor
  · constructor
    · intro happ
      cases hscan : chase_scan s.w.buster s.w.enemies with
      | none =>
        exfalso
        unfold chasing_is_applicable at happ
        rw [hscan] at happ
        simp at happ
      | some ep =>
        obtain ⟨e, p⟩ := ep
        obtain ⟨pre, post, hl, _, hk1, hk2, n, hint, _⟩ :=
          chase_scan_some_spec s.w.buster s.w.enemies hok e p hscan
        refine ⟨e, ?_, hk1, hk2, n, hint⟩
        rw [hl]
        exact List.mem_append.mpr (Or.inr (List.mem_cons_self e post))
    · rintro ⟨e, hmem, hk1, hk2, hex⟩
      cases hscan : chase_scan s.w.buster s.w.enemies with
      | none =>
        exfalso
        exact ((chase_scan_none_iff s.w.buster s.w.enemies hok).mp hscan)
          e hmem ⟨hk1, hk2, hex⟩
      | some ep =>
        obtain ⟨e', p'⟩ := ep
        unfold chasing_is_applicable
        rw [hscan]
  · intro e p hscan
    have spec := chase_scan_some_spec s.w.buster s.w.enemies hok e p hscan
    refine ⟨?_, ?_, ?_, spec⟩
    · unfold chasing_is_applicable
      rw [hscan]
    · unfold chasing_is_applicable
      rw [hscan]
    · unfold chasing_is_applicable
      rw [hscan]

/-- C2 witness: the characterization applied to a concrete world with one
known, seen, ghost-carrying enemy already inside the stun range of the
acting buster, whose own charge is full; the hypothesis on the enemy
parameters holds by computation. -/
theorem C2_witness :
    (2 ≤ c2Enemy.speed ∧ c2Enemy.base.range.1 = 0 ∧ 1 ≤ c2Enemy.base.range.2) ∧
    (((chasing_is_applicable (mkGameS c2World)).1 = true ↔
      ∃ e ∈ (mkGameS c2World).w.enemies, e.is_known = true ∧
        e.has_captured_ghost = true ∧
        ∃ n, intercepted (mkGameS c2World).w.buster e n) ∧
    (∀ e p, chase_scan (mkGameS c2World).w.buster (mkGameS c2World).w.enemies =
        some (e, p) →
      (chasing_is_applicable (mkGameS c2World)).1 = true ∧
      (chasing_is_applicable (mkGameS c2World)).2.sc.chase_enemy = some e ∧
      (chasing_is_applicable (mkGameS c2World)).2.sc.chase_pos = some p ∧
      ∃ pre post, (mkGameS c2World).w.enemies = pre ++ e :: post ∧
        (∀ e2 ∈ pre, ¬ (e2.is_known = true ∧ e2.has_captured_ghost = true ∧
          ∃ n, intercepted (mkGameS c2World).w.buster e2 n)) ∧
        e.is_known = true ∧ e.has_captured_ghost = true ∧
        ∃ n, intercepted (mkGameS c2World).w.buster e n ∧
          p = (chase_state (mkGameS c2World).w.buster e e.base n).2.pos)) :=
  ⟨⟨by decide, by decide, by decide⟩,
    C2_chasing_is_applicable_spec (mkGameS c2World) (by
      intro e he
      simp only [mkGameS, c2World, List.mem_singleton] at he
      subst he
      exact ⟨by decide, by decide, by decide⟩)⟩

/-! ### Release strategy -/

theorem forgetAt_get_self (l : List Ghost) (i : Nat) :
    (forgetAt l i).get? i = (l.get? i).map (fun g => { g with is_known := false }) := by
  unfold forgetAt
  cases hl : l.get? i with
  | none => rw [hl]; rfl
  | some g =>
    rw [List.get?_set_eq, hl]
    rfl

theorem forgetAt_get_other (l : List Ghost) (i j : Nat) (h : j ≠ i) :
    (forgetAt l i).get? j = l.get? j := by
  unfold forgetAt
  cases hl : l.get? i with
  | none => rfl
  | some g => exact List.get?_set_ne _ _ (fun he => h he.symm)

/-- C3 counterexample: a buster carrying ghost 0, 100 units from its base:
ReleaseStrategy is applicable, yet immediately after execute the carried
ghost reference is still set and the ghost is still seen — only the known
flag was cleared.  The claim says the reference is cleared and the seen
flag is false. -/
theorem C3_counterexample :
    (release_is_applicable (mkGameS c3World)).1 = true ∧
    (release_execute (mkGameS c3World)).1.w.buster.captured_ghost = some 0 ∧
    ((release_execute (mkGameS c3World)).1.w.ghosts.get? 0).map Ghost.is_seen =
      some true ∧
    ((release_execute (mkGameS c3World)).1.w.ghosts.get? 0).map Ghost.is_known =
      some false := by
  refine ⟨by decide, by decide, by decide, by decide⟩

/-- C3 amended: ReleaseStrategy fires exactly when the buster carries a
ghost and is strictly within the base far radius (the near bound of the
base range is 0, so the annulus check degenerates to the strict far
bound); is_applicable does not change the state, and execute emits the
release command and clears exactly the carried ghost's known flag —
the carried-ghost reference and the ghost's seen flag are unchanged (the
reference is cleared only by the next turn's snapshot application). -/
theorem C3_release_spec (s : GameS) (far : Int)
    (hrange : s.w.buster.base.range = (0, far)) :
    ((release_is_applicable s).1 = true ↔
      s.w.buster.captured_ghost.isSome = true ∧
      distance_from s.w.buster.base.pos s.w.buster.pos < far * far) ∧
    (release_is_applicable s).2 = s ∧
    (∀ i, s.w.buster.captured_ghost = some i →
      (release_execute s).2 = Cmd.release ∧
      (release_execute s).1.w.buster = s.w.buster ∧
      (release_execute s).1.w.allies = s.w.allies ∧
      (release_execute s).1.w.enemies = s.w.enemies ∧
      (release_execute s).1.w.ghosts.get? i =
        (s.w.ghosts.get? i).map (fun g => { g with is_known := false }) ∧
      ∀ j, j ≠ i → (release_execute s).1.w.ghosts.get? j = s.w.ghosts.get? j) := by
  refine ⟨?_, rfl, ?_⟩
  · unfold release_is_applicable Buster.has_captured_ghost Base.is_close_to
      is_in_range
    rw [hrange]
    simp only [Bool.and_eq_true, decide_eq_true_eq]
    constructor
    · rintro ⟨h1, _, h3⟩
      exact ⟨h1, h3⟩
    · rintro ⟨h1, h3⟩
      refine ⟨h1, ?_, h3⟩
      have := distance_from_nonneg s.w.buster.base.pos s.w.buster.pos
      omega
  · intro i hi
    unfold release_execute
    rw [hi]
    exact ⟨rfl, rfl, rfl, rfl, forgetAt_get_self s.w.ghosts i,
      fun j hj => forgetAt_get_other s.w.ghosts i j hj⟩

/-- C3 witness: the amended release specification applied to the concrete
carrying buster near its base. -/
theorem C3_witness :
    (mkGameS c3World).w.buster.base.range = (0, 1600) ∧
    (((release_is_applicable (mkGameS c3World)).1 = true ↔
      (mkGameS c3World).w.buster.captured_ghost.isSome = true ∧
      distance_from (mkGameS c3World).w.buster.base.pos
        (mkGameS c3World).w.buster.pos < 1600 * 1600) ∧
    (release_is_applicable (mkGameS c3World)).2 = mkGameS c3World ∧
    (∀ i, (mkGameS c3World).w.buster.captured_ghost = some i →
      (release_execute (mkGameS c3World)).2 = Cmd.release ∧
      (release_execute (mkGameS c3World)).1.w.buster =
        (mkGameS c3World).w.buster ∧
      (release_execute (mkGameS c3World)).1.w.allies =
        (mkGameS c3World).w.allies ∧
      (release_execute (mkGameS c3World)).1.w.enemies =
        (mkGameS c3World).w.enemies ∧
      (release_execute (mkGameS c3World)).1.w.ghosts.get? i =
        ((mkGameS c3World).w.ghosts.get? i).map
          (fun g => { g with is_known := false }) ∧
      ∀ j, j ≠ i → (release_execute (mkGameS c3World)).1.w.ghosts.get? j =
        (mkGameS c3World).w.ghosts.get? j)) :=
  ⟨by decide, C3_release_spec (mkGameS c3World) 1600 (by decide)⟩

/-! ### Back-off and Flee geometry (C4) and range boundary semantics (C7) -/

/-- C4 counterexample: a seen ghost one unit to the right of a buster at
the origin makes Back-off applicable, and the move it emits is
(-900, 0) — outside the 16000 x 9000 arena, refuting the claim that every
move these strategies emit stays in bounds (and the coincident-case
substitute is a random draw, not a fixed point; see the amended theorem). -/
theorem C4_counterexample :
    (backing_is_applicable (mkGameS c4World)).1 = true ∧
    (backing_execute ((backing_is_applicable (mkGameS c4World)).2)).2 =
      Cmd.move (-900, 0) ∧
    ¬ in_arena (-900, 0) := by
  refine ⟨by decide, by decide, fun h => absurd h.1 (by decide)⟩

/-- C4 amended: when the player and the reference enemy positions
coincide, keep_distance returns exactly the pair drawn from the random
oracle (the call sites draw from randrange(0, 160000) x randrange(0, 9000),
so the substitute is neither fixed nor confined to the arena), and two
different draws produce two different substituted targets; in the
separated case the emitted move can also leave the arena, as the
counterexample shows. -/
theorem C4_keep_distance_coincident :
    (∀ (p : Int × Int) (min_dist : Int) (r : Int × Int),
      keep_distance p p min_dist r = r) ∧
    (∀ (p : Int × Int) (min_dist : Int),
      keep_distance p p min_dist (0, 0) ≠ keep_distance p p min_dist (1, 1)) := by
  have hpass : ∀ (p : Int × Int) (min_dist : Int) (r : Int × Int),
      keep_distance p p min_dist r = r := by
    intro p min_dist r
    simp only [keep_distance]
    rw [if_neg (by
      have h : (p.1 - p.1) * (p.1 - p.1) + (p.2 - p.2) * (p.2 - p.2) = 0 := by
        ring
      rw [h]
      exact lt_irrefl 0)]
  refine ⟨hpass, ?_⟩
  intro p min_dist
  rw [hpass, hpass]
  decide

/-- C7 counterexample: an enemy with full charge at the origin and the
buster exactly stun_far_radius + enemy_speed = 2560 units away: the Flee
threat test accepts the enemy although the squared distance equals the
squared bound, so this range check is far-inclusive, not far-exclusive as
the claim says of every strategy range check. -/
theorem C7_counterexample :
    will_be_able_to_stun c7Enemy c7Buster = true ∧
    distance_from c7Buster.pos c7Enemy.pos =
      (c7Enemy.stun_range.2 + c7Enemy.speed) *
        (c7Enemy.stun_range.2 + c7Enemy.speed) := by
  refine ⟨by decide, by decide⟩

/-- C7 amended: the shared annulus primitive is near-inclusive and
far-exclusive exactly as specified, and every strategy range check routes
through it except the Flee threat test, which compares the squared
distance with the squared threshold inclusively (dist <= bound^2). -/
theorem C7_range_semantics :
    (∀ p q scope : Int × Int, is_in_range p q scope = true ↔
      scope.1 * scope.1 ≤ distance_from p q ∧
      distance_from p q < scope.2 * scope.2) ∧
    (∀ (b e : Int × Int) (m : Int), fleeing_is_in_range b e m = true ↔
      distance_from b e ≤ m * m) := by
  constructor
  · intro p q scope
    unfold is_in_range
    simp only [Bool.and_eq_true, decide_eq_true_eq]
  · intro b e m
    unfold fleeing_is_in_range
    simp only [decide_eq_true_eq]

/-! ### Stun strategy (C8) -/

theorem find?_eq_head?_filter (p : Buster → Bool) : ∀ l : List Buster,
    l.find? p = (l.filter p).head? := by
  intro l
  induction l with
  | nil => rfl
  | cons a rest ih =>
    by_cases hp : p a = true
    · rw [List.find?_cons_of_pos rest hp, List.filter_cons_of_pos hp]
      rfl
    · rw [List.find?_cons_of_neg rest hp, List.filter_cons_of_neg hp]
      exact ih

/-- C8: when StunStrategy.is_applicable succeeds, the cached target is an
enemy the acting buster can stun: own charge at least 20, target seen, not
stunned, and inside the stun annulus with inclusive near and exclusive far
bounds; the target is the first ghost-carrying qualifying enemy if one
exists, else the first qualifying enemy in enumeration order; and execute
resets the acting buster's stun charge to 0 and emits the stun command for
that target. -/
theorem C8_stun_spec (s : GameS) (happ : (stun_is_applicable s).1 = true) :
    ∃ chosen, (stun_is_applicable s).2.sc.stun_enemy = some chosen ∧
      chosen ∈ s.w.enemies ∧
      20 ≤ s.w.buster.stun_charge ∧
      chosen.is_seen = true ∧
      chosen.stunned_counter = 0 ∧
      s.w.buster.stun_range.1 * s.w.buster.stun_range.1 ≤
        distance_from s.w.buster.pos chosen.pos ∧
      distance_from s.w.buster.pos chosen.pos <
        s.w.buster.stun_range.2 * s.w.buster.stun_range.2 ∧
      ((s.w.enemies.filter (fun e => s.w.buster.can_stun e)).find?
          (fun e => e.has_captured_ghost) = some chosen ∨
        ((s.w.enemies.filter (fun e => s.w.buster.can_stun e)).find?
          (fun e => e.has_captured_ghost) = none ∧
         (s.w.enemies.filter (fun e => s.w.buster.can_stun e)).head? =
           some chosen)) ∧
      (stun_execute ((stun_is_applicable s).2)).1.w.buster.stun_charge = 0 ∧
      (stun_execute ((stun_is_applicable s).2)).2 = Cmd.stun chosen.id := by
  cases hq : s.w.enemies.filter (fun e => s.w.buster.can_stun e) with
  | nil =>
    exfalso
    have heq0 : stun_is_applicable s = (false, s) := by
      unfold stun_is_applicable
      rw [hq]
    rw [heq0] at happ
    exact Bool.noConfusion happ
  | cons e es =>
    have hfind := find?_eq_head?_filter (fun x => x.has_captured_ghost) (e :: es)
    have hchosen : ∃ chosen,
        stun_is_applicable s =
          (true, { s with sc := { s.sc with stun_enemy := some chosen } }) ∧
        chosen ∈ e :: es ∧
        ((e :: es).find? (fun x => x.has_captured_ghost) = some chosen ∨
          ((e :: es).find? (fun x => x.has_captured_ghost) = none ∧
           (e :: es).head? = some chosen)) := by
      cases hcar : (e :: es).filter (fun x => x.has_captured_ghost) with
      | nil =>
        refine ⟨e, ?_, List.mem_cons_self e es, Or.inr ⟨?_, rfl⟩⟩
        · unfold stun_is_applicable
          rw [hq, hcar]
        · rw [hfind, hcar]
          rfl
      | cons c cs =>
        have hcmem : c ∈ (e :: es).filter (fun x => x.has_captured_ghost) := by
          rw [hcar]
          exact List.mem_cons_self c cs
        refine ⟨c, ?_, (List.mem_filter.mp hcmem).1, Or.inl ?_⟩
        · unfold stun_is_applicable
          rw [hq, hcar]
        · rw [hfind, hcar]
          rfl
    obtain ⟨chosen, heq, hmem, hpref⟩ := hchosen
    have hmemq : chosen ∈ s.w.enemies.filter (fun x => s.w.buster.can_stun x) := by
      rw [hq]
      exact hmem
    have hcs : s.w.buster.can_stun chosen = true :=
      (List.mem_filter.mp hmemq).2
    unfold Buster.can_stun Buster.is_stunned is_in_range at hcs
    simp only [Bool.and_eq_true, Bool.not_eq_true', decide_eq_true_eq,
      decide_eq_false_iff_not, not_not] at hcs
    obtain ⟨⟨⟨hch, hstun⟩, hseen⟩, hnear, hfar⟩ := hcs
    refine ⟨chosen, ?_, (List.mem_filter.mp hmemq).1, hch, hseen, ?_,
      hnear, hfar, ?_, ?_, ?_⟩
    · rw [heq]
    · omega
    · exact hpref
    · rw [heq]
      rfl
    · rw [heq]
      rfl

/-- C8 witness: a concrete world with two stun-eligible seen enemies, the
second carrying a ghost: the stun characterization applies and picks the
carrier. -/
theorem C8_witness :
    (stun_is_applicable (mkGameS c8World)).1 = true ∧
    (∃ chosen, (stun_is_applicable (mkGameS c8World)).2.sc.stun_enemy =
        some chosen ∧
      chosen ∈ (mkGameS c8World).w.enemies ∧
      20 ≤ (mkGameS c8World).w.buster.stun_charge ∧
      chosen.is_seen = true ∧
      chosen.stunned_counter = 0 ∧
      (mkGameS c8World).w.buster.stun_range.1 *
          (mkGameS c8World).w.buster.stun_range.1 ≤
        distance_from (mkGameS c8World).w.buster.pos chosen.pos ∧
      distance_from (mkGameS c8World).w.buster.pos chosen.pos <
        (mkGameS c8World).w.buster.stun_range.2 *
          (mkGameS c8World).w.buster.stun_range.2 ∧
      (((mkGameS c8World).w.enemies.filter
          (fun e => (mkGameS c8World).w.buster.can_stun e)).find?
          (fun e => e.has_captured_ghost) = some chosen ∨
        (((mkGameS c8World).w.enemies.filter
          (fun e => (mkGameS c8World).w.buster.can_stun e)).find?
          (fun e => e.has_captured_ghost) = none ∧
         ((mkGameS c8World).w.enemies.filter
          (fun e => (mkGameS c8World).w.buster.can_stun e)).head? =
           some chosen)) ∧
      (stun_execute ((stun_is_applicable (mkGameS c8World)).2)).1.w.buster.stun_charge
        = 0 ∧
      (stun_execute ((stun_is_applicable (mkGameS c8World)).2)).2 =
        Cmd.stun chosen.id) :=
  ⟨by decide, C8_stun_spec (mkGameS c8World) (by decide)⟩

/-! ### Frame behaviour of is_applicable (C9) -/

theorem interceptScan_spec (bpos : Int × Int) : ∀ l : List Ghost,
    (interceptScan bpos l).2.length = l.length ∧
    ∀ i : Nat, (interceptScan bpos l).2.get? i = l.get? i ∨
      ∃ g, l.get? i = some g ∧ g.is_known = true ∧ g.pos = bpos ∧
        (interceptScan bpos l).2.get? i = some g.forget := by
  intro l
  induction l with
  | nil => exact ⟨rfl, fun i => Or.inl rfl⟩
  | cons g rest ih =>
    by_cases hk : g.is_known = true
    · by_cases hp : bpos = g.pos
      · have heq : interceptScan bpos (g :: rest) =
            ((interceptScan bpos rest).1,
             g.forget :: (interceptScan bpos rest).2) := by
          simp only [interceptScan]
          rw [if_pos hk, if_pos hp]
        constructor
        · rw [heq]
          simp only [List.length_cons, ih.1]
        · intro i
          cases i with
          | zero =>
            right
            refine ⟨g, rfl, hk, hp.symm, ?_⟩
            rw [heq]
            rfl
          | succ i' =>
            rw [heq, List.get?_cons_succ, List.get?_cons_succ]
            exact ih.2 i'
      · have heq : interceptScan bpos (g :: rest) = (true, g :: rest) := by
          simp only [interceptScan]
          rw [if_pos hk, if_neg hp]
        rw [heq]
        exact ⟨rfl, fun i => Or.inl rfl⟩
    · have heq : interceptScan bpos (g :: rest) =
          ((interceptScan bpos rest).1, g :: (interceptScan bpos rest).2) := by
        simp only [interceptScan]
        rw [if_neg hk]
      constructor
      · rw [heq]
        simp only [List.length_cons, ih.1]
      · intro i
        cases i with
        | zero =>
          left
          rw [heq]
          rfl
        | succ i' =>
          rw [heq, List.get?_cons_succ, List.get?_cons_succ]
          exact ih.2 i'

/-- StunStrategy.is_applicable leaves the world component of the state
untouched (it writes only the stun_enemy scratch field). -/
theorem stun_is_applicable_w (s : GameS) : (stun_is_applicable s).2.w = s.w := by
  cases hq : s.w.enemies.filter (fun e => s.w.buster.can_stun e) with
  | nil =>
    have heq : stun_is_applicable s = (false, s) := by
      unfold stun_is_applicable
      rw [hq]
    rw [heq]
  | cons e es =>
    cases hcar : (e :: es).filter (fun x => x.has_captured_ghost) with
    | nil =>
      have heq : stun_is_applicable s =
          (true, { s with sc := { s.sc with stun_enemy := some e } }) := by
        unfold stun_is_applicable
        rw [hq, hcar]
      rw [heq]
    | cons c cs =>
      have heq : stun_is_applicable s =
          (true, { s with sc := { s.sc with stun_enemy := some c } }) := by
        unfold stun_is_applicable
        rw [hq, hcar]
      rw [heq]

/-- ChasingStrategy.is_applicable leaves the world component untouched. -/
theorem chasing_is_applicable_w (s : GameS) :
    (chasing_is_applicable s).2.w = s.w := by
  cases hscan : chase_scan s.w.buster s.w.enemies with
  | none =>
    have heq : chasing_is_applicable s = (false, s) := by
      unfold chasing_is_applicable
      rw [hscan]
    rw [heq]
  | some ep =>
    obtain ⟨e, p⟩ := ep
    have heq : chasing_is_applicable s =
        (true, { s with sc :=
          { s.sc with chase_enemy := some e, chase_pos := some p } }) := by
      unfold chasing_is_applicable
      rw [hscan]
    rw [heq]

/-- BustingStrategy.is_applicable leaves the world component untouched. -/
theorem busting_is_applicable_w (s : GameS) :
    (busting_is_applicable s).2.w = s.w := by
  cases hq : s.w.ghosts.filter (fun g => s.w.buster.can_bust g) with
  | nil =>
    have heq : busting_is_applicable s = (false, s) := by
      unfold busting_is_applicable
      rw [hq]
    rw [heq]
  | cons g gs =>
    have heq : busting_is_applicable s =
        (true, { s with sc :=
          { s.sc with bust_ghost := some (minStamina g gs) } }) := by
      unfold busting_is_applicable
      rw [hq]
    rw [heq]

/-- BackingStrategy.is_applicable leaves the world component untouched. -/
theorem backing_is_applicable_w (s : GameS) :
    (backing_is_applicable s).2.w = s.w := by
  cases hscan : back_scan s.w.buster s.w.ghosts with
  | none =>
    have heq : backing_is_applicable s = (false, s) := by
      unfold backing_is_applicable
      rw [hscan]
    rw [heq]
  | some g =>
    have heq : backing_is_applicable s =
        (true, { s with sc := { s.sc with back_ghost := some g } }) := by
      unfold backing_is_applicable
      rw [hscan]
    rw [heq]

/-- C9 counterexample: a known, seen ghost exactly at the buster position:
InterceptStrategy.is_applicable changes the world — the ghost's known flag
goes from true to false — so it is not free of side effects on the world
state as the claim says of every strategy. -/
theorem C9_counterexample :
    (intercept_is_applicable (mkGameS c9World)).2.w ≠ (mkGameS c9World).w ∧
    ((intercept_is_applicable (mkGameS c9World)).2.w.ghosts.get? 0).map
      Ghost.is_known = some false ∧
    ((mkGameS c9World).w.ghosts.get? 0).map Ghost.is_known = some true := by
  refine ⟨by decide, by decide, by decide⟩

/-- C9 amended: every is_applicable except InterceptStrategy leaves the
world unchanged (writing only its own scratch fields), and
InterceptStrategy.is_applicable leaves the busters untouched and changes
each ghost either not at all or — when the ghost is known and sits exactly
at the acting buster position — by clearing its known flag (forget);
nothing else of the world is modified. -/
theorem C9_is_applicable_frame (s : GameS) :
    (stun_is_applicable s).2.w = s.w ∧
    (release_is_applicable s).2.w = s.w ∧
    (homing_is_applicable s).2.w = s.w ∧
    (chasing_is_applicable s).2.w = s.w ∧
    (busting_is_applicable s).2.w = s.w ∧
    (fleeing_is_applicable s).2.w = s.w ∧
    (backing_is_applicable s).2.w = s.w ∧
    (seeking_is_applicable s).2.w = s.w ∧
    (intercept_is_applicable s).2.w.buster = s.w.buster ∧
    (intercept_is_applicable s).2.w.allies = s.w.allies ∧
    (intercept_is_applicable s).2.w.enemies = s.w.enemies ∧
    (intercept_is_applicable s).2.w.ghosts.length = s.w.ghosts.length ∧
    ∀ i : Nat, (intercept_is_applicable s).2.w.ghosts.get? i =
        s.w.ghosts.get? i ∨
      ∃ g, s.w.ghosts.get? i = some g ∧ g.is_known = true ∧
        g.pos = s.w.buster.pos ∧
        (intercept_is_applicable s).2.w.ghosts.get? i = some g.forget := by
  exact ⟨stun_is_applicable_w s, rfl, rfl, chasing_is_applicable_w s,
    busting_is_applicable_w s, rfl, backing_is_applicable_w s, rfl, rfl, rfl,
    rfl, (interceptScan_spec s.w.buster.pos s.w.ghosts).1,
    (interceptScan_spec s.w.buster.pos s.w.ghosts).2⟩


/-! ### The seen-implies-known invariant (C10) -/

/-- One unfolding of the selector scan: with the applicability test of the
head strategy evaluated, the scan either executes the head or recurses on
the threaded state. -/
theorem select_first_cons_eq (st : Strat) (rest : List Strat) (s t : GameS)
    (b : Bool) (his : st.is_applicable s = (b, t)) :
    select_first (st :: rest) s =
      if b then some (st.execute t) else select_first rest t := by
  simp only [select_first, his]

/-- StunStrategy.execute touches only the acting buster's stun charge,
never the ghost roster. -/
theorem stun_execute_ghosts (t : GameS) :
    (stun_execute t).1.w.ghosts = t.w.ghosts := by
  unfold stun_execute
  split <;> rfl

/-- ChasingStrategy.execute only emits a move. -/
theorem chasing_execute_w (t : GameS) : (chasing_execute t).1.w = t.w := by
  unfold chasing_execute
  split <;> rfl

/-- BustingStrategy.execute only emits a command. -/
theorem busting_execute_w (t : GameS) : (busting_execute t).1.w = t.w := by
  unfold busting_execute
  split
  · dsimp only
    split <;> rfl
  · rfl

/-- FleeingStrategy.execute consumes a random draw and emits a move. -/
theorem fleeing_execute_w (t : GameS) : (fleeing_execute t).1.w = t.w := by
  unfold fleeing_execute takeRand
  split
  rename_i r s2 heq
  injection heq with hr hs
  split <;> rw [← hs]

/-- BackingStrategy.execute consumes a random draw and emits a move. -/
theorem backing_execute_w (t : GameS) : (backing_execute t).1.w = t.w := by
  unfold backing_execute takeRand
  split
  rename_i r s2 heq
  injection heq with hr hs
  split <;> rw [← hs]

/-- InterceptStrategy.execute only emits a move. -/
theorem intercept_execute_w (t : GameS) : (intercept_execute t).1.w = t.w := by
  unfold intercept_execute
  split <;> rfl

/-- SeekingStrategy.execute writes only the seek scratch fields. -/
theorem seeking_execute_w (t : GameS) : (seeking_execute t).1.w = t.w := by
  unfold seeking_execute takeRand
  dsimp only
  split
  · split
    · rfl
    · split <;> rfl
  · rfl

/-- ReleaseStrategy.execute with no carried ghost leaves the roster as is
(this branch is unreachable after a successful is_applicable). -/
theorem release_execute_ghosts_none (t : GameS)
    (h : t.w.buster.captured_ghost = none) :
    (release_execute t).1.w.ghosts = t.w.ghosts := by
  unfold release_execute
  rw [h]

/-- ReleaseStrategy.execute clears the known flag of the carried ghost
through the roster alias and changes nothing else in the roster. -/
theorem release_execute_ghosts_some (t : GameS) (i : Nat)
    (h : t.w.buster.captured_ghost = some i) :
    (release_execute t).1.w.ghosts = forgetAt t.w.ghosts i := by
  unfold release_execute
  rw [h]

/-- A failed Back-off scan means no ghost of the roster is both seen and
too close to the buster. -/
theorem back_scan_none_spec (b : Buster) : ∀ l : List Ghost,
    back_scan b l = none →
    ∀ g ∈ l, ¬(g.is_seen = true ∧ b.is_too_close_to g = true) := by
  intro l
  induction l with
  | nil =>
    intro _ g hg
    exact absurd hg (List.not_mem_nil g)
  | cons a rest ih =>
    intro h g hg
    by_cases hc : (a.is_seen && b.is_too_close_to a) = true
    · exfalso
      have heq : back_scan b (a :: rest) = some a := by
        unfold back_scan
        rw [if_pos hc]
      rw [heq] at h
      exact Option.noConfusion h
    · have heq : back_scan b (a :: rest) = back_scan b rest := by
        simp only [back_scan]
        rw [if_neg hc]
      rw [heq] at h
      rcases List.mem_cons.mp hg with hga | hg2
      · subst hga
        rintro ⟨h1, h2⟩
        rw [h1, h2] at hc
        exact hc rfl
      · exact ih h g hg2

/-- When BackingStrategy.is_applicable reports false, the scan found no
seen ghost the buster is too close to. -/
theorem backing_reject_scan (t : GameS)
    (h : (backing_is_applicable t).1 = false) :
    back_scan t.w.buster t.w.ghosts = none := by
  cases hscan : back_scan t.w.buster t.w.ghosts with
  | none => rfl
  | some g =>
    exfalso
    have heq : backing_is_applicable t =
        (true, { t with sc := { t.sc with back_ghost := some g } }) := by
      unfold backing_is_applicable
      rw [hscan]
    rw [heq] at h
    exact Bool.noConfusion h

/-- With a positive near bust radius, a failed Back-off scan forces every
ghost at the buster's exact position to be unseen: a coincident seen ghost
is at squared distance 0, strictly within the near radius, and would have
made Back-off applicable. -/
theorem coincident_unseen (b : Buster) (l : List Ghost)
    (hnone : back_scan b l = none) (hnear : 1 ≤ b.bust_range.1) :
    ∀ g ∈ l, g.pos = b.pos → g.is_seen = false := by
  intro g hg hp
  cases hs : g.is_seen with
  | false => rfl
  | true =>
    exfalso
    have hz : distance_from b.pos g.pos = 0 := by
      rw [hp]
      unfold distance_from
      ring
    have htoo : b.is_too_close_to g = true := by
      unfold Buster.is_too_close_to is_within is_in_range
      rw [hz]
      simp only [Bool.and_eq_true, decide_eq_true_eq]
      refine ⟨?_, ?_⟩
      · show (0 : Int) * 0 ≤ 0
        norm_num
      · show (0 : Int) < b.bust_range.1 * b.bust_range.1
        nlinarith [hnear]
    exact back_scan_none_spec b l hnone g hg ⟨hs, htoo⟩

/-- Clearing the known flag of an unseen roster entry preserves the
seen-implies-known invariant of the roster. -/
theorem forgetAt_inv (l : List Ghost) (i : Nat)
    (hinv : ∀ g ∈ l, ghostSeenImpKnown g)
    (hunseen : ∀ g0 : Ghost, l.get? i = some g0 → g0.is_seen = false) :
    ∀ g ∈ forgetAt l i, ghostSeenImpKnown g := by
  intro g hg
  obtain ⟨n, hn⟩ := List.mem_iff_get?.mp hg
  by_cases hni : n = i
  · subst hni
    rw [forgetAt_get_self] at hn
    cases hl : l.get? n with
    | none =>
      rw [hl] at hn
      exact Option.noConfusion hn
    | some g0 =>
      rw [hl] at hn
      have hn2 : some { g0 with is_known := false } = some g := hn
      have hgg : g = { g0 with is_known := false } := (Option.some_inj.mp hn2).symm
      intro hsg
      exfalso
      have h1 : g0.is_seen = true := by
        rw [hgg] at hsg
        exact hsg
      rw [hunseen g0 hl] at h1
      exact Bool.noConfusion h1
  · rw [forgetAt_get_other l i n hni] at hn
    exact hinv g (List.get?_mem hn)

/-- The Intercept scan preserves the roster invariant whenever every ghost
at the scan position is unseen: those are the only ghosts it forgets. -/
theorem interceptScan_inv (bpos : Int × Int) (l : List Ghost)
    (hinv : ∀ g ∈ l, ghostSeenImpKnown g)
    (hsafe : ∀ g ∈ l, g.pos = bpos → g.is_seen = false) :
    ∀ g ∈ (interceptScan bpos l).2, ghostSeenImpKnown g := by
  intro g hg
  obtain ⟨n, hn⟩ := List.mem_iff_get?.mp hg
  rcases (interceptScan_spec bpos l).2 n with hsame | ⟨g0, hg0, _, hp, hout⟩
  · rw [hsame] at hn
    exact hinv g (List.get?_mem hn)
  · rw [hout] at hn
    have hgg : g = g0.forget := (Option.some_inj.mp hn).symm
    intro hsg
    exfalso
    have h1 : g0.is_seen = true := by
      rw [hgg] at hsg
      exact hsg
    rw [hsafe g0 (List.get?_mem hg0) hp] at h1
    exact Bool.noConfusion h1

/-- C10: the seen-implies-known invariant of the data model.  The per-turn
reset establishes it (seen is cleared while known persists), snapshot
application raises both flags, capture clears both, a move changes
neither, and one full strategy-selection step of an acting buster
preserves it across the whole ghost roster.  The step case holds for the
parameters of every buster the program constructs (near bust radius
900 >= 1) together with the reachability fact that a carried ghost is not
seen (Buster.capture clears its seen flag and carried ghosts do not recur
in the snapshot): the strictly higher-priority Back-off strategy fires on
any seen ghost at the buster's own position, so Intercept's forget only
ever reaches unseen coincident ghosts, and Release's forget only the
unseen carried ghost. -/
theorem C10_seen_imp_known_invariant :
    (∀ g : Ghost, ghostSeenImpKnown g.reset) ∧
    (∀ b : Buster, busterSeenImpKnown b.reset) ∧
    (∀ (g : Ghost) (x y state value : Int),
      ghostSeenImpKnown (ghostSnapshot g x y state value)) ∧
    (∀ (b : Buster) (x y : Int), busterSeenImpKnown (busterSnapshotFlags b x y)) ∧
    (∀ g : Ghost, ghostSeenImpKnown (captureGhostFlags g)) ∧
    (∀ (b : Buster) (goal : Int × Int),
      busterSeenImpKnown b → busterSeenImpKnown (b.step_towards goal)) ∧
    (∀ (s s2 : GameS) (c : Cmd),
      (∀ g ∈ s.w.ghosts, ghostSeenImpKnown g) →
      1 ≤ s.w.buster.bust_range.1 →
      (∀ i : Nat, s.w.buster.captured_ghost = some i →
        ∀ g0 : Ghost, s.w.ghosts.get? i = some g0 → g0.is_seen = false) →
      step s = some (s2, c) →
      ∀ g ∈ s2.w.ghosts, ghostSeenImpKnown g) := by
  refine ⟨?_, ?_, ?_, ?_, ?_, ?_, ?_⟩
  · intro g hs
    exact Bool.noConfusion hs
  · intro b hs
    exact Bool.noConfusion hs
  · intro g x y state value _
    rfl
  · intro b x y _
    rfl
  · intro g hs
    exact Bool.noConfusion hs
  · intro b goal hb hs
    exact hb hs
  · intro s s2 c hinv hnear hcarr hstep
    unfold step STRATEGIES at hstep
    rcases h1 : stun_is_applicable s with ⟨b1, t1⟩
    have ht1w : t1.w = s.w := by
      have hw := stun_is_applicable_w s
      rw [h1] at hw
      exact hw
    rw [select_first_cons_eq ⟨stun_is_applicable, stun_execute⟩ _ _ _ _ h1] at hstep
    cases b1 with
    | true =>
      rw [if_pos rfl] at hstep
      have hx : stun_execute t1 = (s2, c) := Option.some_inj.mp hstep
      have hs2 : s2 = (stun_execute t1).1 := by rw [hx]
      rw [hs2, stun_execute_ghosts, ht1w]
      exact hinv
    | false =>
      rw [if_neg Bool.false_ne_true] at hstep
      rcases h2 : release_is_applicable t1 with ⟨b2, t2⟩
      have ht2 : t2 = t1 := by
        have hw : (release_is_applicable t1).2 = t1 := rfl
        rw [h2] at hw
        exact hw
      rw [select_first_cons_eq ⟨release_is_applicable, release_execute⟩ _ _ _ _ h2] at hstep
      cases b2 with
      | true =>
        rw [if_pos rfl] at hstep
        have hx : release_execute t2 = (s2, c) := Option.some_inj.mp hstep
        have hs2 : s2 = (release_execute t2).1 := by rw [hx]
        cases hcap : s.w.buster.captured_ghost with
        | none =>
          have hcap2 : t2.w.buster.captured_ghost = none := by
            rw [ht2, ht1w]
            exact hcap
          rw [hs2, release_execute_ghosts_none t2 hcap2, ht2, ht1w]
          exact hinv
        | some i =>
          have hcap2 : t2.w.buster.captured_ghost = some i := by
            rw [ht2, ht1w]
            exact hcap
          rw [hs2, release_execute_ghosts_some t2 i hcap2, ht2, ht1w]
          exact forgetAt_inv s.w.ghosts i hinv (hcarr i hcap)
      | false =>
        rw [if_neg Bool.false_ne_true] at hstep
        rcases h3 : homing_is_applicable t2 with ⟨b3, t3⟩
        have ht3 : t3 = t2 := by
          have hw : (homing_is_applicable t2).2 = t2 := rfl
          rw [h3] at hw
          exact hw
        have ht3w : t3.w = s.w := by
          rw [ht3, ht2]
          exact ht1w
        rw [select_first_cons_eq ⟨homing_is_applicable, homing_execute⟩ _ _ _ _ h3] at hstep
        cases b3 with
        | true =>
          rw [if_pos rfl] at hstep
          have hx : homing_execute t3 = (s2, c) := Option.some_inj.mp hstep
          have hs2 : s2 = (homing_execute t3).1 := by rw [hx]
          have hw3 : (homing_execute t3).1 = t3 := rfl
          rw [hs2, hw3, ht3w]
          exact hinv
        | false =>
          rw [if_neg Bool.false_ne_true] at hstep
          rcases h4 : chasing_is_applicable t3 with ⟨b4, t4⟩
          have ht4w : t4.w = s.w := by
            have hw := chasing_is_applicable_w t3
            rw [h4] at hw
            have hw2 : t4.w = t3.w := hw
            rw [hw2]
            exact ht3w
          rw [select_first_cons_eq ⟨chasing_is_applicable, chasing_execute⟩ _ _ _ _ h4] at hstep
          cases b4 with
          | true =>
            rw [if_pos rfl] at hstep
            have hx : chasing_execute t4 = (s2, c) := Option.some_inj.mp hstep
            have hs2 : s2 = (chasing_execute t4).1 := by rw [hx]
            rw [hs2, chasing_execute_w, ht4w]
            exact hinv
          | false =>
            rw [if_neg Bool.false_ne_true] at hstep
            rcases h5 : busting_is_applicable t4 with ⟨b5, t5⟩
            have ht5w : t5.w = s.w := by
              have hw := busting_is_applicable_w t4
              rw [h5] at hw
              have hw2 : t5.w = t4.w := hw
              rw [hw2]
              exact ht4w
            rw [select_first_cons_eq ⟨busting_is_applicable, busting_execute⟩ _ _ _ _ h5] at hstep
            cases b5 with
            | true =>
              rw [if_pos rfl] at hstep
              have hx : busting_execute t5 = (s2, c) := Option.some_inj.mp hstep
              have hs2 : s2 = (busting_execute t5).1 := by rw [hx]
              rw [hs2, busting_execute_w, ht5w]
              exact hinv
            | false =>
              rw [if_neg Bool.false_ne_true] at hstep
              rcases h6 : fleeing_is_applicable t5 with ⟨b6, t6⟩
              have ht6w : t6.w = s.w := by
                have hw : (fleeing_is_applicable t5).2.w = t5.w := rfl
                rw [h6] at hw
                have hw2 : t6.w = t5.w := hw
                rw [hw2]
                exact ht5w
              rw [select_first_cons_eq ⟨fleeing_is_applicable, fleeing_execute⟩ _ _ _ _ h6] at hstep
              cases b6 with
              | true =>
                rw [if_pos rfl] at hstep
                have hx : fleeing_execute t6 = (s2, c) := Option.some_inj.mp hstep
                have hs2 : s2 = (fleeing_execute t6).1 := by rw [hx]
                rw [hs2, fleeing_execute_w, ht6w]
                exact hinv
              | false =>
                rw [if_neg Bool.false_ne_true] at hstep
                rcases h7 : backing_is_applicable t6 with ⟨b7, t7⟩
                have ht7w : t7.w = s.w := by
                  have hw := backing_is_applicable_w t6
                  rw [h7] at hw
                  have hw2 : t7.w = t6.w := hw
                  rw [hw2]
                  exact ht6w
                rw [select_first_cons_eq ⟨backing_is_applicable, backing_execute⟩ _ _ _ _ h7] at hstep
                cases b7 with
                | true =>
                  rw [if_pos rfl] at hstep
                  have hx : backing_execute t7 = (s2, c) := Option.some_inj.mp hstep
                  have hs2 : s2 = (backing_execute t7).1 := by rw [hx]
                  rw [hs2, backing_execute_w, ht7w]
                  exact hinv
                | false =>
                  rw [if_neg Bool.false_ne_true] at hstep
                  have hb7 : (backing_is_applicable t6).1 = false := by rw [h7]
                  have hscan : back_scan s.w.buster s.w.ghosts = none := by
                    rw [← ht6w]
                    exact backing_reject_scan t6 hb7
                  have hsafe : ∀ g ∈ s.w.ghosts,
                      g.pos = s.w.buster.pos → g.is_seen = false :=
                    coincident_unseen s.w.buster s.w.ghosts hscan hnear
                  rcases h8 : intercept_is_applicable t7 with ⟨b8, t8⟩
                  have ht8g : t8.w.ghosts =
                      (interceptScan s.w.buster.pos s.w.ghosts).2 := by
                    have hw : (intercept_is_applicable t7).2.w.ghosts =
                        (interceptScan t7.w.buster.pos t7.w.ghosts).2 := rfl
                    rw [h8] at hw
                    have hw2 : t8.w.ghosts =
                        (interceptScan t7.w.buster.pos t7.w.ghosts).2 := hw
                    rw [hw2, ht7w]
                  have hinv8 : ∀ g ∈ t8.w.ghosts, ghostSeenImpKnown g := by
                    rw [ht8g]
                    exact interceptScan_inv s.w.buster.pos s.w.ghosts hinv hsafe
                  rw [select_first_cons_eq ⟨intercept_is_applicable, intercept_execute⟩ _ _ _ _ h8] at hstep
                  cases b8 with
                  | true =>
                    rw [if_pos rfl] at hstep
                    have hx : intercept_execute t8 = (s2, c) := Option.some_inj.mp hstep
                    have hs2 : s2 = (intercept_execute t8).1 := by rw [hx]
                    rw [hs2, intercept_execute_w]
                    exact hinv8
                  | false =>
                    rw [if_neg Bool.false_ne_true] at hstep
                    rw [select_first_cons_eq ⟨seeking_is_applicable, seeking_execute⟩ [] t8 t8 true rfl] at hstep
                    rw [if_pos rfl] at hstep
                    have hx : seeking_execute t8 = (s2, c) := Option.some_inj.mp hstep
                    have hs2 : s2 = (seeking_execute t8).1 := by rw [hx]
                    rw [hs2, seeking_execute_w]
                    exact hinv8

/-- C10 witness: the concrete world c10World (a default buster and one
distant seen, known ghost) satisfies every hypothesis of the step case;
the selector picks Intercept and moves toward the ghost, leaving the world
unchanged, and the invariant holds for the ghost afterwards. -/
theorem C10_witness :
    1 ≤ (mkGameS c10World).w.buster.bust_range.1 ∧
    step (mkGameS c10World) = some (mkGameS c10World, Cmd.move (5000, 5000)) ∧
    ghostSeenImpKnown c10Ghost :=
  ⟨by decide,
   by rfl,
   C10_seen_imp_known_invariant.2.2.2.2.2.2 (mkGameS c10World) (mkGameS c10World)
     (Cmd.move (5000, 5000))
     (by
       intro g hg
       have hgs : g = c10Ghost := List.mem_singleton.mp hg
       rw [hgs]
       intro _
       rfl)
     (by decide)
     (fun i hi => Option.noConfusion hi)
     (by rfl)
     c10Ghost (List.mem_singleton.mpr rfl)⟩

end CodeBusters
